import Mathlib

/-!
The lazily materialised layer file of overlaybd.

A shallow embedding of `src/switch_file.cpp` (the Switch File and its
switch-over protocol), `src/bk_download.cpp` (block copy, digest check and
the background download) and `src/image_file.cpp` (the opening of a layer and
the tables of shared files), with the properties of the specification proved
or refuted on it.

Conventions of the embedding.

* An `IFile *` is a handle (`Nat`); a nullable pointer is an `Option`.
* Code that calls into the photon scheduler is embedded as a coroutine: a
  function runs the source from one suspension point to the next and says
  where it stopped.  A system of tasks is a state together with the list of
  suspended tasks, and the scheduler picks which task runs next.
* Calls that leave the repository (the local file system, the remote file, the
  hash library) are fields of an environment record acting on a world.
-/

namespace FileSystem

/-- The address of an `IFile` object. -/
abbrev IFile := Nat

/-- The fields of `class SwitchFile` (the join handle of the download thread is
the `Download` component of `Sys` below). -/
structure SwitchFile where
  io_count : Int
  local_path : Bool
  m_file : Option IFile
  m_old : Option IFile
  state : Int
  running : Bool
  filepath : String
deriving DecidableEq, Repr

/-- What the calls that open a backing return at the moment they are made:
`open_localfile_adaptor(path, flags, 0644, 0)`, `new_tar_file_adaptor(file)`
and `ZFile::zfile_open_ro(file, verify, true)`; `none` is `nullptr`. -/
structure DecodeStack where
  open_localfile_adaptor : String → Option IFile
  new_tar_file_adaptor : IFile → IFile
  zfile_open_ro : IFile → Bool → Option IFile

/-- The constructor `SwitchFile(IFile *source, bool local, const char *path)`;
a null `path` leaves `filepath` empty. -/
def SwitchFile.mk_source (source : IFile) (loc : Bool) (path : Option String) : SwitchFile :=
  { io_count := 0, local_path := loc, m_file := some source, m_old := none,
    state := 0, running := true, filepath := path.getD "" }

/-- The function `new_switch_file(file, local, filepath)`: the decode stack is put
on `file`; `none` is the `nullptr` returned when `zfile_open_ro` fails. -/
def new_switch_file (env : DecodeStack) (file : IFile) (loc : Bool) (path : Option String) :
    Option SwitchFile :=
  match env.zfile_open_ro (env.new_tar_file_adaptor file) (if loc then false else true) with
  | none => none
  | some zf => some (SwitchFile.mk_source zf loc path)

/-- The method `SwitchFile::do_switch`: returns `-1` and changes nothing when the
commit file or its zfile does not open, otherwise installs the new file. -/
def SwitchFile.do_switch (env : DecodeStack) (sf : SwitchFile) : Int × SwitchFile :=
  match env.open_localfile_adaptor sf.filepath with
  | none => (-1, sf)
  | some file =>
    match env.zfile_open_ro (env.new_tar_file_adaptor file) false with
    | none => (-1, sf)
    | some zf => (0, { sf with m_old := sf.m_file, m_file := some zf, local_path := true })

/-- The two `photon::thread_usleep(1000)` calls of `check_switch`. -/
inductive Sleep where
  /-- the sleep of `while (state != 0)` -/
  | state_loop
  /-- the sleep of `while (io_count > 0)` -/
  | drain_loop
deriving DecidableEq, Repr

/-- How far `check_switch` gets before the task is suspended or the call returns. -/
inductive Check where
  /-- `check_switch` returned `r` -/
  | ret (r : Int) (sf : SwitchFile)
  /-- the task sleeps for 1 ms inside `check_switch` -/
  | sleep (at_loop : Sleep) (sf : SwitchFile)
deriving DecidableEq, Repr

/-- The loop `while (state != 0) thread_usleep(1000); return 0;` from its test. -/
def SwitchFile.wait_state (sf : SwitchFile) : Check :=
  if sf.state != 0 then .sleep .state_loop sf else .ret 0 sf

/-- The loop `while (io_count > 0) thread_usleep(1000);` from its test, and the
rest of `check_switch`: `if (do_switch() == 0) state = 0; return 0;`. -/
def SwitchFile.drain (env : DecodeStack) (sf : SwitchFile) : Check :=
  if sf.io_count > 0 then .sleep .drain_loop sf
  else
    let r := sf.do_switch env
    if r.1 == 0 then .ret 0 { r.2 with state := 0 } else .ret 0 r.2

/-- The method `SwitchFile::check_switch`, from its entry. -/
def SwitchFile.check_switch (env : DecodeStack) (sf : SwitchFile) : Check :=
  if sf.state == 0 then .ret 0 sf
  else if sf.state == 2 then sf.wait_state
  else ({ sf with state := 2 } : SwitchFile).drain env

/-- The method `check_switch` resumed when one of its sleeps ends. -/
def SwitchFile.check_switch_wake (env : DecodeStack) (sf : SwitchFile) : Sleep → Check
  | .state_loop => sf.wait_state
  | .drain_loop => sf.drain env

/-- How far a forwarded operation gets before its task is suspended. -/
inductive Forward where
  /-- suspended inside `check_switch` -/
  | sleep (at_loop : Sleep) (sf : SwitchFile)
  /-- `io_count` is incremented and `m_file->func` is running on `file` -/
  | call (file : Option IFile) (sf : SwitchFile)
deriving DecidableEq, Repr

/-- The lines `++io_count; DEFER(...); return m_file->func;` once `check_switch`
has returned. -/
def Forward.after : Check → Forward
  | .sleep a sf => .sleep a sf
  | .ret _ sf => .call sf.m_file { sf with io_count := sf.io_count + 1 }

/-- The body of `FORWARD(func)` from its first line to the first suspension. -/
def FORWARD (env : DecodeStack) (sf : SwitchFile) : Forward :=
  Forward.after (sf.check_switch env)

/-- The body of `FORWARD(func)` resumed from a sleep of `check_switch`. -/
def FORWARD_wake (env : DecodeStack) (sf : SwitchFile) (a : Sleep) : Forward :=
  Forward.after (sf.check_switch_wake env a)

/-- The deferred `--io_count`, run when `m_file->func` has returned. -/
def FORWARD_done (sf : SwitchFile) : SwitchFile :=
  { sf with io_count := sf.io_count - 1 }

/-- The method `SwitchFile::pread`: `local_path` is tested first and selects the
branch with `SCOPE_AUDIT_THRESHOLD(10UL * 1000, ...)`; both branches then run
`FORWARD(pread(buf, count, offset))`.  The first component says whether the
call runs under the audit. -/
def SwitchFile.pread (env : DecodeStack) (sf : SwitchFile) : Bool × Forward :=
  if sf.local_path then (true, FORWARD env sf) else (false, FORWARD env sf)

/-- The body of `SwitchFile::download` once `BKDL::download_blob` has returned
`ok`: `if (ok) state = 1;`. -/
def SwitchFile.download_returns (ok : Bool) (sf : SwitchFile) : SwitchFile :=
  if ok then { sf with state := 1 } else sf

/-- The Switch File after the step of a forwarded operation in which `do_switch` installed
the object `zf`: the fields written by `do_switch`, `state = 0` and `++io_count`. -/
def SwitchFile.switched (sf : SwitchFile) (zf : IFile) : SwitchFile :=
  { sf with m_old := sf.m_file, m_file := some zf, local_path := true, state := 0,
            io_count := sf.io_count + 1 }

/-- A forwarded operation of the Switch File (one task), by where it stands.
`audit` says whether it is a `pread` that took the audited branch. -/
inductive Op where
  /-- suspended in a sleep of `check_switch` -/
  | sleeping (at_loop : Sleep) (audit : Bool)
  /-- inside `m_file->func` on `file`, with `io_count` incremented -/
  | in_call (file : Option IFile) (audit : Bool)
  /-- the operation has returned -/
  | returned
deriving DecidableEq, Repr

/-- The download task created by `start_download`. -/
inductive Download where
  /-- the Switch File was built without a download -/
  | absent
  /-- `SwitchFile::download` has not returned yet -/
  | pending
  /-- `SwitchFile::download` has returned -/
  | finished
deriving DecidableEq, Repr

/-- A Switch File together with the tasks that work on it. -/
structure Sys where
  sf : SwitchFile
  ops : List Op
  dl : Download
deriving DecidableEq, Repr

/-- What the cooperative scheduler does next.  A task runs from one suspension
point (a 1 ms sleep, or the forwarded call on the backing) to the next. -/
inductive Choice where
  /-- a task calls a forwarded operation (`pread` when `is_pread`) -/
  | call (is_pread : Bool) (env : DecodeStack)
  /-- the suspended operation `i` goes on -/
  | resume (i : Nat) (env : DecodeStack)
  /-- `BKDL::download_blob` returns `ok` in the download task -/
  | download_returns (ok : Bool)

/-- The suspended operation that `fw` leaves behind. -/
def Op.of_forward (audit : Bool) : Forward → Op
  | .sleep a _ => .sleeping a audit
  | .call f _ => .in_call f audit

/-- The Switch File that `fw` leaves behind. -/
def Forward.sf : Forward → SwitchFile
  | .sleep _ sf => sf
  | .call _ sf => sf

/-- One scheduling step. -/
def Sys.exec (s : Sys) : Choice → Sys
  | .call is_pread env =>
    let r := if is_pread then s.sf.pread env else (false, FORWARD env s.sf)
    { s with sf := r.2.sf, ops := s.ops ++ [Op.of_forward r.1 r.2] }
  | .resume i env =>
    match s.ops.get? i with
    | some (.sleeping a audit) =>
      let fw := FORWARD_wake env s.sf a
      { s with sf := fw.sf, ops := s.ops.set i (Op.of_forward audit fw) }
    | some (.in_call _ _) =>
      { s with sf := FORWARD_done s.sf, ops := s.ops.set i .returned }
    | _ => s
  | .download_returns ok =>
    if s.dl = .pending then { s with sf := s.sf.download_returns ok, dl := .finished } else s

/-- A run of the scheduler. -/
def Sys.run (s : Sys) (cs : List Choice) : Sys :=
  cs.foldl Sys.exec s

/-- The system after `new_switch_file(file, local, filepath)`: no download task. -/
def Sys.plain (sf : SwitchFile) : Sys :=
  { sf := sf, ops := [], dl := .absent }

/-- The system after `new_switch_file_with_download(file, ...)`: the Switch File is
`new_switch_file(file, false, filepath)` and `start_download` has created the
download task. -/
def Sys.with_download (sf : SwitchFile) : Sys :=
  { sf := sf, ops := [], dl := .pending }

/-- The systems a constructor call can leave: `new_switch_file` with any `local`,
or `new_switch_file_with_download`. -/
def Sys.constructed (env : DecodeStack) (file : IFile) (path : Option String) (s : Sys) : Prop :=
  (∃ loc sf, new_switch_file env file loc path = some sf ∧ s = Sys.plain sf) ∨
  (∃ sf, new_switch_file env file false path = some sf ∧ s = Sys.with_download sf)

/-- The phase of the specification, numbered in its order
`Remote < ReadyToSwap < Swapping < Local`: Remote is `state = 0` without
`local_path`, ReadyToSwap `state = 1`, Swapping `state = 2`, Local `state = 0`
with `local_path`. -/
def SwitchFile.phase (sf : SwitchFile) : Nat :=
  if sf.state = 1 then 1 else if sf.state = 2 then 2 else if sf.local_path then 3 else 0

/-- Whether the operation is inside the forwarded call `m_file->func`. -/
def Op.in_flight : Op → Bool
  | .in_call _ _ => true
  | _ => false

/-- Whether the operation sleeps in the loop `while (io_count > 0)`. -/
def Op.draining : Op → Bool
  | .sleeping .drain_loop _ => true
  | _ => false

/-- The number of operations inside the forwarded call. -/
def Sys.in_flight (s : Sys) : Nat :=
  s.ops.countP Op.in_flight

/-- What holds of a Switch File and its tasks between any two scheduling steps. -/
structure Sys.Inv (s : Sys) : Prop where
  count : s.sf.io_count = s.in_flight
  backing : ∀ f a, Op.in_call f a ∈ s.ops → f = s.sf.m_file
  state : s.sf.state = 0 ∨ s.sf.state = 1 ∨ s.sf.state = 2
  pending : s.dl = .pending → s.sf.state = 0 ∧ s.sf.local_path = false
  drainers : s.ops.countP Op.draining ≤ 1
  draining : 0 < s.ops.countP Op.draining → s.sf.state = 2
  loc : s.sf.local_path = true → s.sf.state = 0

end FileSystem

namespace FileSystem

/-- A decode stack on which everything opens: the commit file is object `100`. -/
def opens : DecodeStack :=
  { open_localfile_adaptor := fun _ => some 100
    new_tar_file_adaptor := fun f => f
    zfile_open_ro := fun f _ => some (f + 1) }

/-- A decode stack on which the commit file does not open. -/
def open_fails : DecodeStack :=
  { open_localfile_adaptor := fun _ => none
    new_tar_file_adaptor := fun f => f
    zfile_open_ro := fun f _ => some (f + 1) }

/-- The path of a commit file. -/
def commit_path : String := "/layer/overlaybd.commit"

/-- The system after `new_switch_file_with_download(6, ...)` on `opens`: the zfile
on the remote file is object `7`. -/
def fresh : Sys :=
  Sys.with_download (SwitchFile.mk_source 7 false (some commit_path))

/-- A Switch File on the remote backing `7` whose download has just succeeded. -/
def ready : SwitchFile :=
  { io_count := 0, local_path := false, m_file := some 7, m_old := none,
    state := 1, running := true, filepath := "/layer/overlaybd.commit" }

end FileSystem

namespace BKDL

/-- A byte of a file or of a buffer. -/
abbrev Byte := UInt8

/-- The conversion `(ssize_t)bs` of a `size_t` on a 64-bit target. -/
def to_ssize (bs : Nat) : Int :=
  if bs % 2 ^ 64 < 2 ^ 63 then ((bs % 2 ^ 64 : Nat) : Int) else ((bs % 2 ^ 64 : Nat) : Int) - 2 ^ 64

/-- The constant `ALIGNMENT`. -/
def ALIGNMENT : Nat := 4096

/-- What `filecopy` calls outside itself, acting on a world `σ`:
`posix_memalign(&buff, alignment, bs)` gives the fresh buffer with whatever it
holds, or `none` when `buff` stays null; `running` reads the flag passed by
reference; `pread` is `infile->pread(buff, count, offset)` and gives the return
value and the bytes it stored at the start of `buff`; `pwrite` is
`outfile->pwrite(buff, count, offset)` on the content of the buffer; `ftruncate`
is `outfile->ftruncate(length)`. -/
structure CopyEnv (σ : Type) where
  posix_memalign : σ → Nat → Nat → Option (List Byte)
  running : σ → Bool
  pread : σ → Nat → Int → (Int × List Byte) × σ
  pwrite : σ → List Byte → Nat → Int → Int × σ
  ftruncate : σ → Int → Int × σ

/-- The buffer after a read stored `data` at its start. -/
def fill (buff data : List Byte) : List Byte :=
  (data ++ buff.drop data.length).take buff.length

/-- Where control stands inside the loop of `filecopy`. -/
inductive Label where
  /-- at the test `count == (ssize_t)bs` of the `while` -/
  | loop_test (count : Int)
  /-- at the label `again_read`, with the value of `retry` -/
  | again_read (retry : Int)
  /-- at the label `again_write`, with the values of `retry` and `rlen` -/
  | again_write (retry : Int) (rlen : Int)
deriving DecidableEq, Repr

/-- The loop of `filecopy` from a label, with the buffer, `offset` and the world;
each test or call takes one unit of `fuel`, and `none` is fuel exhausted.  The
result is the value returned by `filecopy`.  (`retry` is an `int`; it does not
wrap for `retry_limit ≥ 0`.) -/
def filecopy_from {σ : Type} (E : CopyEnv σ) (bs : Nat) (retry_limit : Int) :
    Nat → Label → List Byte → Int → σ → Option (Int × σ)
  | 0, _, _, _, _ => none
  | fuel + 1, .loop_test count, buff, offset, w =>
    if count == to_ssize bs then
      if !E.running w then some (-1, w)
      else filecopy_from E bs retry_limit fuel (.again_read retry_limit) buff offset w
    else
      some (offset, (E.ftruncate w offset).2)
  | fuel + 1, .again_read retry, buff, offset, w =>
    if retry == 0 then some (-1, w)
    else
      let r := E.pread w bs offset
      if r.1.1 < 0 then
        filecopy_from E bs retry_limit fuel (.again_read (retry - 1)) (fill buff r.1.2) offset r.2
      else
        filecopy_from E bs retry_limit fuel (.again_write retry_limit r.1.1) (fill buff r.1.2)
          offset r.2
  | fuel + 1, .again_write retry rlen, buff, offset, w =>
    if retry == 0 then some (-1, w)
    else
      let r := E.pwrite w buff bs offset
      if r.1 < rlen then
        filecopy_from E bs retry_limit fuel (.again_write (retry - 1) rlen) buff offset r.2
      else
        filecopy_from E bs retry_limit fuel (.loop_test rlen) buff (offset + rlen) r.2

/-- The function `filecopy(infile, outfile, bs, retry_limit, running)`. -/
def filecopy {σ : Type} (E : CopyEnv σ) (fuel : Nat) (bs : Nat) (retry_limit : Int) (w : σ) :
    Option (Int × σ) :=
  if bs == 0 then some (-1, w)
  else
    match E.posix_memalign w ALIGNMENT bs with
    | none => some (-1, w)
    | some buff => filecopy_from E bs retry_limit fuel (.loop_test (to_ssize bs)) buff 0 w

/-- The content of a file after `pwrite` of `b` at offset `n`: a gap before `n` is
filled with zero bytes. -/
def write_at (d : List Byte) (n : Nat) (b : List Byte) : List Byte :=
  (d ++ List.replicate (n - d.length) 0).take n ++ b ++ d.drop (n + b.length)

/-- The content of a file after `ftruncate` to length `n`. -/
def resize (d : List Byte) (n : Nat) : List Byte :=
  (d ++ List.replicate (n - d.length) 0).take n

/-- The environment of the claim on `filecopy`, for a source `src` and a view `dst`
of the destination in the world: the buffer of `bs` bytes is allocated, the
running flag reads true, every `pread` of `bs` bytes at an offset `n` returns
the `min(bs, L - n)` source bytes there and leaves the destination alone, every
`pwrite` of the buffer stores it at its offset and returns `bs`, and `ftruncate`
sets the length. -/
structure CopyEnv.Ideal {σ : Type} (E : CopyEnv σ) (dst : σ → List Byte) (src : List Byte)
    (bs : Nat) : Prop where
  alloc : ∀ w, ∃ b, E.posix_memalign w ALIGNMENT bs = some b ∧ b.length = bs
  running : ∀ w, E.running w = true
  pread : ∀ w (n : Nat), n ≤ src.length →
    (E.pread w bs n).1 = (((min bs (src.length - n) : Nat) : Int), (src.drop n).take bs) ∧
    dst (E.pread w bs n).2 = dst w
  pwrite : ∀ w (buff : List Byte) (n : Nat),
    (E.pwrite w buff bs n).1 = (bs : Int) ∧
    dst (E.pwrite w buff bs n).2 = write_at (dst w) n (buff.take bs)
  ftruncate : ∀ w (n : Nat), dst (E.ftruncate w n).2 = resize (dst w) n

/-- The world of the download code: the namespace-scope flag `BKDL::downloading`
of the program, and everything outside the program. -/
structure World (σ : Type) where
  downloading : Bool
  outside : σ
deriving DecidableEq, Repr

/-- The fields of `FileSystem::ThrottleLimits` that `download_blob` sets. -/
structure ThrottleLimits where
  throughput : Nat
  block_size : Nat
  time_window : Nat
deriving DecidableEq, Repr

/-- What the download code calls outside the repository, acting on the world; `κ`
is the type `SHA256_CTX`.

* `thread_sleep w seconds` is `photon::thread_sleep`: other tasks run meanwhile.
* `running` reads the flag passed by reference.
* `src_pread limits` is `pread` on the source file, behind
  `new_throttled_file(src, limits)` when `limits` is given.
* `dst_pwrite` and `dst_ftruncate` act on the file opened at the temporary path;
  `open_localfile_adaptor w path` says whether that file opened.
* `new_localfs_adaptor` says whether the adaptor is non-null; `rename` is its
  method.
* `sys_open`, `sys_fstat` (return value and `st_size`), `sys_pread` (return
  value and bytes stored in the buffer) and `sys_close` are the system calls of
  `sha256sum`; `SHA256_Init`, `SHA256_Update` and `SHA256_Final` are those of
  the hash library. -/
structure BlobEnv (σ κ : Type) where
  thread_sleep : World σ → Int → World σ
  running : World σ → Bool
  posix_memalign : World σ → Nat → Nat → Option (List Byte)
  src_pread : Option ThrottleLimits → World σ → Nat → Int → (Int × List Byte) × World σ
  dst_pwrite : World σ → List Byte → Nat → Int → Int × World σ
  dst_ftruncate : World σ → Int → Int × World σ
  open_localfile_adaptor : World σ → String → Bool × World σ
  new_localfs_adaptor : World σ → Bool
  rename : World σ → String → String → Int × World σ
  sys_open : World σ → String → Int × World σ
  sys_fstat : World σ → Int → (Int × Int) × World σ
  sys_pread : World σ → Int → Nat → Int → (Int × List Byte) × World σ
  sys_close : World σ → Int → World σ
  SHA256_Init : κ
  SHA256_Update : κ → List Byte → Int × κ
  SHA256_Final : κ → List Byte

/-- The files `filecopy` is called on by `download_blob`: the source, throttled
or not, and the file at the temporary path. -/
def BlobEnv.copy_env {σ κ : Type} (E : BlobEnv σ κ) (limits : Option ThrottleLimits) :
    CopyEnv (World σ) :=
  { posix_memalign := E.posix_memalign
    running := E.running
    pread := E.src_pread limits
    pwrite := E.dst_pwrite
    ftruncate := E.dst_ftruncate }

/-- The constant `BUFFERSIZE` of `sha256sum`. -/
def BUFFERSIZE : Nat := 65536

/-- The constant `SHA256_DIGEST_LENGTH` of the hash library. -/
def SHA256_DIGEST_LENGTH : Nat := 32

/-- The loop `for (offset = 0; offset < stat.st_size; offset += BUFFERSIZE)` of
`sha256sum`, with at most `n` passes left; `none` is the return of the empty
string from inside the loop. -/
def sha256sum_loop {σ κ : Type} (E : BlobEnv σ κ) (fd st_size : Int) :
    Nat → Int → κ → World σ → Option κ × World σ
  | 0, _, ctx, w => (some ctx, w)
  | n + 1, offset, ctx, w =>
    if offset < st_size then
      let r := E.sys_pread w fd BUFFERSIZE offset
      if r.1.1 < 0 then (none, r.2)
      else
        let u := E.SHA256_Update ctx (r.1.2.take r.1.1.toNat)
        if u.1 < 0 then (none, r.2)
        else sha256sum_loop E fd st_size n (offset + BUFFERSIZE) u.2 r.2
    else (some ctx, w)

/-- One hexadecimal digit, lower case. -/
def hex_digit (n : Nat) : Char :=
  if n < 10 then Char.ofNat (48 + n) else Char.ofNat (87 + n)

/-- The output of `sprintf(res, "%02x", b)`. -/
def hex2 (b : Byte) : String :=
  String.mk [hex_digit (b.toNat / 16), hex_digit (b.toNat % 16)]

/-- The function `sha256sum(fn)`: the empty string when the file does not open,
`fstat` fails, a read fails or the hash update fails; otherwise `"sha256:"`
followed by the digest in hexadecimal. -/
def sha256sum {σ κ : Type} (E : BlobEnv σ κ) (fn : String) (w : World σ) : String × World σ :=
  let o := E.sys_open w fn
  if o.1 < 0 then ("", o.2)
  else
    let st := E.sys_fstat o.2 o.1
    if st.1.1 < 0 then ("", E.sys_close st.2 o.1)
    else
      let passes := ((st.1.2 + (BUFFERSIZE - 1)) / BUFFERSIZE).toNat
      match sha256sum_loop E o.1 st.1.2 passes 0 E.SHA256_Init st.2 with
      | (none, w') => ("", E.sys_close w' o.1)
      | (some ctx, w') =>
        ("sha256:" ++ String.join (((E.SHA256_Final ctx).take SHA256_DIGEST_LENGTH).map hex2),
          E.sys_close w' o.1)

/-- The ways `sha256sum(fn)` fails in the world `w`: the file does not open,
`fstat` fails, or the loop ends on a failed read or a failed hash update. -/
def hash_fails {σ κ : Type} (E : BlobEnv σ κ) (fn : String) (w : World σ) : Prop :=
  (E.sys_open w fn).1 < 0 ∨
  (¬ (E.sys_open w fn).1 < 0 ∧ (E.sys_fstat (E.sys_open w fn).2 (E.sys_open w fn).1).1.1 < 0) ∨
  (¬ (E.sys_open w fn).1 < 0 ∧
    ¬ (E.sys_fstat (E.sys_open w fn).2 (E.sys_open w fn).1).1.1 < 0 ∧
    (sha256sum_loop E (E.sys_open w fn).1
      (E.sys_fstat (E.sys_open w fn).2 (E.sys_open w fn).1).1.2
      (((E.sys_fstat (E.sys_open w fn).2 (E.sys_open w fn).1).1.2 + (BUFFERSIZE - 1)) /
        BUFFERSIZE).toNat
      0 E.SHA256_Init (E.sys_fstat (E.sys_open w fn).2 (E.sys_open w fn).1).2).1 = none)

/-- The calls of the download that the claims count. -/
inductive Event where
  /-- a call `filecopy(src, dst, 1 MiB, 1, running)` and what it returned -/
  | filecopy (res : Int)
  /-- a call `lfs->rename(from, to)` and what it returned -/
  | rename (src dst : String) (ret : Int)
deriving DecidableEq, Repr

/-- The function `download_done(digest, downloaded_file, dst_file)`: its result, the
world and the calls of `rename` it made.  The hash runs on a thread of its
own while the task sleeps; here it runs in one piece. -/
def download_done {σ κ : Type} (E : BlobEnv σ κ) (digest downloaded_file dst_file : String)
    (w : World σ) : Bool × World σ × List Event :=
  if !E.new_localfs_adaptor w then (false, w, [])
  else
    let h := sha256sum E downloaded_file w
    if h.1 != digest then (false, h.2, [])
    else
      let r := E.rename h.2 downloaded_file dst_file
      if r.1 != 0 then (false, r.2, [.rename downloaded_file dst_file r.1])
      else (true, r.2, [.rename downloaded_file dst_file r.1])

/-- Modelled from the spec: the logging macro `LOG_ERRNO_RETURN(new_errno, retv,
...)` is declared in `overlaybd/alog.h`, which is not part of the sources at
hand; as at every place it is used, it logs the message and returns `retv`
from the function around it.  In a function that returns `bool` the value is
converted: every non-zero integer is `true`. -/
def LOG_ERRNO_RETURN (retv : Int) : Bool :=
  retv != 0

/-- The loop `while (downloading) photon::thread_sleep(1);` with at most `fuel`
tests; `none` is fuel exhausted. -/
def wait_gate {σ κ : Type} (E : BlobEnv σ κ) : Nat → World σ → Option (World σ)
  | 0, _ => none
  | fuel + 1, w => if w.downloading then wait_gate E fuel (E.thread_sleep w 1) else some w

/-- The loop `while (max_try-- > 0)` of `download_blob` with `n` tries left: its
result (`true` is the `return true` inside, `false` the `return false` after
the loop), the world and the calls made. -/
def attempts {σ κ : Type} (E : BlobEnv σ κ) (fuel : Nat) (limits : Option ThrottleLimits)
    (digest dl_file_path dst_file : String) :
    Nat → World σ → Option (Bool × World σ × List Event)
  | 0, w => some (false, w, [])
  | n + 1, w =>
    match filecopy (E.copy_env limits) fuel (1024 * 1024) 1 w with
    | none => none
    | some (res, w1) =>
      if res < 0 then
        (attempts E fuel limits digest dl_file_path dst_file n w1).map
          fun r => (r.1, r.2.1, Event.filecopy res :: r.2.2)
      else
        let d := download_done E digest dl_file_path dst_file w1
        if d.1 then some (true, d.2.1, Event.filecopy res :: d.2.2)
        else
          (attempts E fuel limits digest dl_file_path dst_file n d.2.1).map
            fun r => (r.1, r.2.1, Event.filecopy res :: (d.2.2 ++ r.2.2))

/-- The limits `download_blob` puts on the source: none unless `max_MB_ps > 0`,
else `throughput = max_MB_ps * 1024UL * 1024`, `block_size = 1024UL * 1024` and
`time_window = 1UL`. -/
def throttle (max_MB_ps : Int) : Option ThrottleLimits :=
  if max_MB_ps > 0 then
    some { throughput := (max_MB_ps.toNat * 1024 * 1024) % 2 ^ 64,
           block_size := 1024 * 1024, time_window := 1 }
  else none

/-- The function `download_blob` after `downloading = true`, from the line
`std::string dl_file_path = dst_file + ".download";` to its end, in the world
`w3` in which the flag was just set.  The deferred `downloading = false` runs
on every return. -/
def download_blob_rest {σ κ : Type} (E : BlobEnv σ κ) (fuel : Nat) (digest dst_file : String)
    (max_MB_ps max_try : Int) (w3 : World σ) : Option (Bool × World σ × List Event) :=
  let dl_file_path := dst_file ++ ".download"
  let limits := throttle max_MB_ps
  let o := E.open_localfile_adaptor w3 dl_file_path
  if !o.1 then some (LOG_ERRNO_RETURN (-1), { o.2 with downloading := false }, [])
  else
    (attempts E fuel limits digest dl_file_path dst_file max_try.toNat o.2).map
      fun r => (r.1, { r.2.1 with downloading := false }, r.2.2)

/-- The function `download_blob(source_file, digest, dst_file, delay, max_MB_ps,
max_try, running)`: its result, the world and the calls made; `none` is fuel
exhausted in the wait for the flag or in a copy.  The deferred
`downloading = false` runs on every return after the flag was set. -/
def download_blob {σ κ : Type} (E : BlobEnv σ κ) (fuel : Nat) (digest dst_file : String)
    (delay max_MB_ps max_try : Int) (w : World σ) : Option (Bool × World σ × List Event) :=
  let w1 := E.thread_sleep w delay
  if !E.running w1 then some (false, w1, [])
  else
    match wait_gate E fuel w1 with
    | none => none
    | some w2 =>
      let w3 : World σ := { w2 with downloading := true }
      download_blob_rest E fuel digest dst_file max_MB_ps max_try w3

/-- The number of calls of `filecopy` in a list of calls. -/
def copies_made (ev : List Event) : Nat :=
  ev.countP fun e => match e with
    | .filecopy _ => true
    | _ => false

/-- The number of calls of `rename` in a list of calls. -/
def renames_made (ev : List Event) : Nat :=
  ev.countP fun e => match e with
    | .rename _ _ _ => true
    | _ => false

end BKDL

namespace BKDL

/-- An environment in which every call does what it is asked: the world is the
content of the destination, the source is `src`. -/
def copies (src : List Byte) : CopyEnv (List Byte) :=
  { posix_memalign := fun _ _ bs => some (List.replicate bs 0)
    running := fun _ => true
    pread := fun w count offset =>
      ((((src.drop offset.toNat).take count).length, (src.drop offset.toNat).take count), w)
    pwrite := fun w buff count offset => (count, write_at w offset.toNat (buff.take count))
    ftruncate := fun w length => (0, resize w length.toNat) }

end BKDL

namespace FileSystem

/-- The method `SwitchFile::download(src_file, digest, delay_sec, max_MB_ps,
max_try)`: `download_blob` on `filepath`, then `state = 1` when it returned
true. -/
def SwitchFile.download {σ κ : Type} (E : BKDL.BlobEnv σ κ) (fuel : Nat) (sf : SwitchFile)
    (digest : String) (delay_sec max_MB_ps max_try : Int) (w : BKDL.World σ) :
    Option (SwitchFile × BKDL.World σ × List BKDL.Event) :=
  (BKDL.download_blob E fuel digest sf.filepath delay_sec max_MB_ps max_try w).map
    fun r => (sf.download_returns r.1, r.2.1, r.2.2)

end FileSystem

namespace BKDL

/-- The arguments of a call of `download_blob`. -/
structure BlobArgs where
  digest : String
  dst_file : String
  delay : Int
  max_MB_ps : Int
  max_try : Int
deriving DecidableEq, Repr

/-- A call of `download_blob` (one task), by where it stands. -/
inductive Blob where
  /-- suspended in `photon::thread_sleep(delay)` -/
  | delaying (a : BlobArgs)
  /-- suspended in `photon::thread_sleep(1)` of the loop `while (downloading)` -/
  | polling (a : BlobArgs)
  /-- past `downloading = true`, suspended in the rest of the function (a read of
  the source, the wait for the hash) -/
  | holding (a : BlobArgs)
  /-- the call has returned `r` -/
  | returned (r : Bool)
deriving DecidableEq, Repr

/-- The world, with the process-wide flag in it, and the calls of `download_blob`
of the process. -/
structure Gate (σ : Type) where
  world : World σ
  tasks : List Blob
deriving DecidableEq, Repr

/-- What happens next in the process: a task calls `download_blob` and is
suspended in its first sleep; the suspended call `i` goes on, and once past
`downloading = true` it either runs `through` to its return or is suspended
again; or the outside world changes (the input and output in flight, the rest
of the process). -/
inductive GateChoice (σ : Type) where
  | call (a : BlobArgs)
  | resume (i : Nat) (through : Bool)
  | outside (s : σ)

/-- The call `i`, past `downloading = true`, runs the rest of `download_blob` to
its return; when the rest does not return within `fuel` the call is still
suspended in it. -/
def Gate.finish {σ κ : Type} (E : BlobEnv σ κ) (fuel : Nat) (g : Gate σ) (i : Nat)
    (a : BlobArgs) : Gate σ :=
  match download_blob_rest E fuel a.digest a.dst_file a.max_MB_ps a.max_try g.world with
  | none => { g with tasks := g.tasks.set i (.holding a) }
  | some (r, w, _) => { world := w, tasks := g.tasks.set i (.returned r) }

/-- The call `i` at the test of `while (downloading)`: `wait_gate` up to its
first sleep.  When the loop does not end there the call is suspended in
`photon::thread_sleep(1)`; when it ends the flag is set in the same step. -/
def Gate.claim {σ κ : Type} (E : BlobEnv σ κ) (fuel : Nat) (g : Gate σ) (i : Nat)
    (a : BlobArgs) (through : Bool) : Gate σ :=
  match wait_gate E 1 g.world with
  | none => { g with tasks := g.tasks.set i (.polling a) }
  | some w2 =>
    let g3 : Gate σ :=
      { world := { w2 with downloading := true }, tasks := g.tasks.set i (.holding a) }
    if through then g3.finish E fuel i a else g3

/-- One scheduling step of the calls of `download_blob`: a call runs from where
it is suspended to its next suspension or to its return. -/
def Gate.exec {σ κ : Type} (E : BlobEnv σ κ) (fuel : Nat) (g : Gate σ) : GateChoice σ → Gate σ
  | .call a => { g with tasks := g.tasks ++ [.delaying a] }
  | .outside s => { g with world := { g.world with outside := s } }
  | .resume i through =>
    match g.tasks.get? i with
    | some (.delaying a) =>
      let w1 := E.thread_sleep g.world a.delay
      if !E.running w1 then { world := w1, tasks := g.tasks.set i (.returned false) }
      else Gate.claim E fuel { g with world := w1 } i a through
    | some (.polling a) =>
      Gate.claim E fuel { g with world := E.thread_sleep g.world 1 } i a through
    | some (.holding a) => if through then g.finish E fuel i a else g
    | _ => g

/-- A run of the scheduler. -/
def Gate.run {σ κ : Type} (E : BlobEnv σ κ) (fuel : Nat) (g : Gate σ)
    (cs : List (GateChoice σ)) : Gate σ :=
  cs.foldl (Gate.exec E fuel) g

/-- The process at its start: `bool downloading = false;` and no call. -/
def Gate.init {σ : Type} (s : σ) : Gate σ :=
  { world := { downloading := false, outside := s }, tasks := [] }

/-- Whether the call is between `downloading = true` and the deferred reset. -/
def Blob.holds : Blob → Bool
  | .holding _ => true
  | _ => false

/-- The number of calls between `downloading = true` and the deferred reset. -/
def Gate.holders {σ : Type} (g : Gate σ) : Nat :=
  g.tasks.countP Blob.holds

/-- Between two scheduling steps the flag is set exactly when one call is past
`downloading = true`, and no two calls are. -/
def Gate.Inv {σ : Type} (g : Gate σ) : Prop :=
  g.holders = if g.world.downloading then 1 else 0

/-- The flag `downloading` is a variable of `bk_download.cpp` that only
`download_blob` writes: a sleep does not change it (what the other calls of
`download_blob` do to it meanwhile are steps of the schedule). -/
def BlobEnv.Quiet {σ κ : Type} (E : BlobEnv σ κ) : Prop :=
  ∀ (w : World σ) (d : Int), (E.thread_sleep w d).downloading = w.downloading

/-- A call of `download_blob` on `/layer/overlaybd.commit`. -/
def one_call : BlobArgs :=
  { digest := "sha256:00", dst_file := "/layer/overlaybd.commit", delay := 0, max_MB_ps := 0,
    max_try := 3 }

end BKDL

namespace BKDL

/-- The choices of the environment `scripted`. -/
structure Script where
  /-- whether the file at the temporary path opens -/
  dst_opens : Bool
  /-- whether `sha256sum` can open the file it is to hash -/
  hash_opens : Bool
  /-- the number of calls of `rename` that fail before one succeeds -/
  rename_failures : Nat
deriving DecidableEq, Repr

/-- A small environment: the source is empty, every write succeeds, the hash
library returns 32 zero bytes, and the world counts the calls of `rename`. -/
def scripted (c : Script) : BlobEnv Nat Unit :=
  { thread_sleep := fun w _ => w
    running := fun _ => true
    posix_memalign := fun _ _ bs => some (List.replicate bs 0)
    src_pread := fun _ w _ _ => ((0, []), w)
    dst_pwrite := fun w _ count _ => (count, w)
    dst_ftruncate := fun w _ => (0, w)
    open_localfile_adaptor := fun w _ => (c.dst_opens, w)
    new_localfs_adaptor := fun _ => true
    rename := fun w _ _ =>
      (if w.outside < c.rename_failures then -1 else 0, { w with outside := w.outside + 1 })
    sys_open := fun w _ => (if c.hash_opens then 3 else -1, w)
    sys_fstat := fun w _ => ((0, 0), w)
    sys_pread := fun w _ _ _ => ((0, []), w)
    sys_close := fun w _ => w
    SHA256_Init := ()
    SHA256_Update := fun _ _ => (1, ())
    SHA256_Final := fun _ => List.replicate 32 0 }

/-- The digest string of 32 zero bytes. -/
def zero_digest : String :=
  "sha256:0000000000000000000000000000000000000000000000000000000000000000"

/-- A digest string that the hash of `scripted` never equals. -/
def other_digest : String :=
  "sha256:1111111111111111111111111111111111111111111111111111111111111111"

/-- The world at the start: the flag is clear and no rename was made. -/
def start : World Nat :=
  { downloading := false, outside := 0 }

end BKDL

namespace FileSystem

/-- The largest value of an `int`. -/
def INT_MAX : Int := 2 ^ 31 - 1

/-- The lines `extra = (extra < 0) ? 30 : extra;` and
`int delay_sec = (rand() % extra) + download_delay;` of
`new_switch_file_with_download`, on the value `rand` returned by `rand()`.
The operator `%` of C truncates; `none` is undefined behaviour: the division
by zero of `rand() % 0`, or a sum beyond `INT_MAX`. -/
def delay_sec (rand download_delay extra : Int) : Option Int :=
  let extra := if extra < 0 then 30 else extra
  if extra = 0 then none
  else if rand.tmod extra + download_delay > INT_MAX then none
  else some (rand.tmod extra + download_delay)

/-- What a call of `new_switch_file_with_download` does. -/
inductive Started where
  /-- `new_switch_file` returned null and so does the call -/
  | null
  /-- the computation of the delay is undefined -/
  | undefined
  /-- the Switch File is returned and `start_download(download_src, digest,
  delay_sec, max_MB_ps, max_try)` has created its download task -/
  | started (s : Sys) (download_src : Option IFile) (digest : String)
      (delay_sec max_MB_ps max_try : Int)
deriving DecidableEq, Repr

/-- The function `new_switch_file_with_download(file, download_src, digest,
filepath, download_delay, extra, max_MB_ps, max_try)`. -/
def new_switch_file_with_download (env : DecodeStack) (rand : Int) (file : IFile)
    (download_src : Option IFile) (digest : String) (filepath : Option String)
    (download_delay extra max_MB_ps max_try : Int) : Started :=
  match new_switch_file env file false filepath with
  | none => .null
  | some ret =>
    match delay_sec rand download_delay extra with
    | none => .undefined
    | some d => .started (Sys.with_download ret) download_src digest d max_MB_ps max_try

end FileSystem

namespace BKDL

/-- An environment for the retries of `filecopy`: the world counts the calls of
`pread` made; the first `failures` of them return `-1`, every later one returns
0 bytes, and every write succeeds. -/
def flaky (failures : Nat) : CopyEnv Nat :=
  { posix_memalign := fun _ _ bs => some (List.replicate bs 0)
    running := fun _ => true
    pread := fun w _ _ => (if w < failures then (-1, []) else (0, []), w + 1)
    pwrite := fun w _ count _ => (count, w)
    ftruncate := fun w _ => (0, w) }

end BKDL

/-- The fields of `ImageConfigNS::LayerConfig` that the embedded code reads. -/
structure LayerConfig where
  file : String
  dir : String
  digest : String
  size : Nat
deriving DecidableEq, Repr

/-- The fields of the `download` member of the image configuration. -/
structure DownloadConfig where
  enable : Int
  delay : Int
  delayExtra : Int
  maxMBps : Int
  tryCnt : Int
deriving DecidableEq, Repr

/-- The fields of `ImageFile` that the embedded methods read or write: the status
and its reason, `conf.repoBlobUrl()`, the member `download` of `conf` when
`conf.HasMember("download")`, and the keys built by `open_lowers`. -/
structure ImageFile where
  m_status : Int
  m_exception : String
  repoBlobUrl : String
  download : Option DownloadConfig
  lowersKey : String
  lower_file_keys : List String
deriving DecidableEq, Repr

/-- The method `ImageFile::set_auth_failed`. -/
def ImageFile.set_auth_failed (img : ImageFile) : ImageFile :=
  if img.m_status == 0 then { img with m_status := -1, m_exception := "Authentication failed" }
  else img

/-- The method `ImageFile::set_failed(reason)`. -/
def ImageFile.set_failed (img : ImageFile) (reason : String) : ImageFile :=
  if img.m_status == 0 then { img with m_status := -1, m_exception := reason } else img

/-- A call of one of the two methods that record a failure. -/
inductive Failure where
  | set_failed (reason : String)
  | set_auth_failed
deriving DecidableEq, Repr

/-- The call made on an `ImageFile`. -/
def ImageFile.record (img : ImageFile) : Failure → ImageFile
  | .set_failed reason => img.set_failed reason
  | .set_auth_failed => img.set_auth_failed

/-- The reason a call gives. -/
def Failure.reason : Failure → String
  | .set_failed reason => reason
  | .set_auth_failed => "Authentication failed"

/-- The name `COMMIT_FILE_NAME`. -/
def COMMIT_FILE_NAME : String := "overlaybd.commit"

/-- The flag `O_RDONLY`. -/
def O_RDONLY : Nat := 0

/-- The flag `O_DIRECT` (its value on x86-64 Linux). -/
def O_DIRECT : Nat := 16384

/-- The value `EPERM` of `errno`. -/
def EPERM : Int := 1

/-- The value `io_engine_libaio` of `IOEngineType`. -/
def io_engine_libaio : Int := 1

/-- What opening a layer calls outside the repository, at the moment of the call:
whether `new_localfs_adaptor()` is non-null and what its `access(path, 0)`
returns; `open_localfile_adaptor(path, flags, 0644, ioengine)`;
`new_aligned_file_adaptor(file, ALIGNMENT_4K, true, true)`; the calls behind
`new_switch_file`; `remote_fs->open(url, O_RDONLY)` with the `errno` it leaves;
`srcfs->open(url, O_RDONLY)`; the value of `rand()`; and the address of a
`new FileSystem::RefFile`. -/
structure LayerEnv where
  new_localfs_adaptor : Bool
  access : String → Int
  open_localfile_adaptor : String → Nat → Int → Option FileSystem.IFile
  new_aligned_file_adaptor : FileSystem.IFile → Option FileSystem.IFile
  decode : FileSystem.DecodeStack
  remote_open : String → Option FileSystem.IFile × Int
  srcfs_open : String → Option FileSystem.IFile
  rand : Int
  new_RefFile : Nat

/-- The function `BKDL::check_downloaded(path)`. -/
def BKDL.check_downloaded (env : LayerEnv) (path : String) : Bool :=
  if !env.new_localfs_adaptor then false
  else if env.access path == 0 then true
  else false

/-- The class `FileSystem::RefFile`: the object at `addr` forwards to `m_file`,
which it owns; the constructor sets `ref_count = 1`. -/
structure FileSystem.RefFile where
  addr : Nat
  m_file : Option FileSystem.Sys
  key : String
  ref_count : Int
deriving DecidableEq, Repr

/-- The fields of `ImageService` that the embedded code reads or writes:
`global_conf.ioEngine()` as the `int` it initialises, and the two tables. -/
structure ImageService where
  ioEngine : Int
  opened_files : String → Option FileSystem.RefFile
  opened_lowers : String → Option FileSystem.RefFile

/-- The assignment `image_service.opened_files[key] = rfile`, and the write
through the pointer the table holds. -/
def ImageService.set_opened_file (svc : ImageService) (key : String)
    (rfile : FileSystem.RefFile) : ImageService :=
  { svc with opened_files := fun k => if k = key then some rfile else svc.opened_files k }

/-- The assignment `image_service.opened_lowers[key] = rfile`, and the write
through the pointer the table holds. -/
def ImageService.set_opened_lowers (svc : ImageService) (key : String)
    (rfile : FileSystem.RefFile) : ImageService :=
  { svc with opened_lowers := fun k => if k = key then some rfile else svc.opened_lowers k }

/-- The calls of a layer open that the claims speak of. -/
inductive Call where
  /-- `open_localfile_adaptor(path, flags, 0644, ioengine)` -/
  | open_localfile_adaptor (path : String) (flags : Nat) (ioengine : Int)
  /-- `remote_fs->open(url, O_RDONLY)` -/
  | remote_open (url : String)
  /-- `srcfs->open(url, O_RDONLY)` -/
  | srcfs_open (url : String)
  /-- a Switch File was created by `new_switch_file` -/
  | new_switch_file (loc : Bool)
  /-- a download task was created by `start_download` -/
  | start_download (digest : String) (delay_sec : Int)
deriving DecidableEq, Repr

/-- The lines of `__open_ro_file` from `new_switch_file(file, true, path)` on. -/
def ImageFile.open_ro_file_switch (img : ImageFile) (env : LayerEnv) (path : String)
    (file : FileSystem.IFile) (calls : List Call) :
    Option FileSystem.SwitchFile × ImageFile × List Call :=
  match FileSystem.new_switch_file env.decode file true (some path) with
  | none => (none, img.set_failed ("failed to open switch file `" ++ path), calls)
  | some switch_file => (some switch_file, img, calls ++ [.new_switch_file true])

/-- The method `ImageFile::__open_ro_file(path)`: the file returned (`none` is
null), the image and the calls made. -/
def ImageFile.__open_ro_file (img : ImageFile) (svc : ImageService) (env : LayerEnv)
    (path : String) : Option FileSystem.SwitchFile × ImageFile × List Call :=
  let ioengine := if svc.ioEngine > 2 then 0 else svc.ioEngine
  let flags := if ioengine == io_engine_libaio then O_RDONLY ||| O_DIRECT else O_RDONLY
  match env.open_localfile_adaptor path flags ioengine with
  | none =>
    (none, img.set_failed ("failed to open local file " ++ path),
      [.open_localfile_adaptor path flags ioengine])
  | some file =>
    if flags &&& O_DIRECT != 0 then
      match env.new_aligned_file_adaptor file with
      | none =>
        (none, img.set_failed ("failed to open aligned_file_adaptor " ++ path),
          [.open_localfile_adaptor path flags ioengine])
      | some aligned_file =>
        img.open_ro_file_switch env path aligned_file
          [.open_localfile_adaptor path flags ioengine]
    else
      img.open_ro_file_switch env path file [.open_localfile_adaptor path flags ioengine]

/-- What a layer open returns: undefined behaviour on the way, null, or the
address of a `RefFile`. -/
inductive Ret where
  | undefined
  | null
  | file (addr : Nat)
deriving DecidableEq, Repr

/-- The outcome of `__open_ro_remote_share`: what it returns, the image, the
service and the calls made. -/
structure Opened where
  ret : Ret
  img : ImageFile
  svc : ImageService
  calls : List Call

/-- The URL of a remote layer, lines `url = conf.repoBlobUrl();` to
`url += digest;`. -/
def ImageFile.remote_url (img : ImageFile) (digest : String) : String :=
  let url := img.repoBlobUrl
  let url := if url.data.getLast? != some '/' then url ++ "/" else url
  url ++ digest

/-- The lines of `__open_ro_remote_share` that build the Switch File on the remote
file opened at `url`, with or without a download: `none` is undefined
behaviour, `some none` a null Switch File; and the calls made. -/
def ImageFile.build_switch (img : ImageFile) (env : LayerEnv) (dir digest url : String)
    (remote_file : FileSystem.IFile) : Option (Option FileSystem.Sys) × List Call :=
  match img.download with
  | some download =>
    if download.enable == 1 then
      match FileSystem.new_switch_file_with_download env.decode env.rand remote_file
          (env.srcfs_open url) digest (some (dir ++ "/" ++ COMMIT_FILE_NAME))
          download.delay download.delayExtra download.maxMBps download.tryCnt with
      | .undefined => (none, [.srcfs_open url, .new_switch_file false])
      | .null => (some none, [.srcfs_open url])
      | .started s _ _ delay_sec _ _ =>
        (some (some s), [.srcfs_open url, .new_switch_file false,
          .start_download digest delay_sec])
    else
      match FileSystem.new_switch_file env.decode remote_file false none with
      | none => (some none, [])
      | some sf => (some (some (FileSystem.Sys.plain sf)), [.new_switch_file false])
  | none =>
    match FileSystem.new_switch_file env.decode remote_file false none with
    | none => (some none, [])
    | some sf => (some (some (FileSystem.Sys.plain sf)), [.new_switch_file false])

/-- The lines of `__open_ro_remote_share` after the remote file `remote_file` was
opened at `url`. -/
def ImageFile.open_remote_switch (img : ImageFile) (svc : ImageService) (env : LayerEnv)
    (dir digest url : String) (remote_file : FileSystem.IFile) : Opened :=
  match (img.build_switch env dir digest url remote_file).1 with
  | none =>
    { ret := .undefined, img := img, svc := svc,
      calls := .remote_open url :: (img.build_switch env dir digest url remote_file).2 }
  | some none =>
    { ret := .null, img := img.set_failed ("failed to open switch file `" ++ url), svc := svc,
      calls := .remote_open url :: (img.build_switch env dir digest url remote_file).2 }
  | some (some switch_file) =>
    { ret := .file env.new_RefFile, img := img,
      svc := svc.set_opened_file dir
        { addr := env.new_RefFile, m_file := some switch_file, key := dir, ref_count := 1 },
      calls := .remote_open url :: (img.build_switch env dir digest url remote_file).2 }

/-- The method `ImageFile::__open_ro_remote_share(dir, digest, size)`. -/
def ImageFile.__open_ro_remote_share (img : ImageFile) (svc : ImageService) (env : LayerEnv)
    (dir digest : String) (_size : Nat) : Opened :=
  match svc.opened_files dir with
  | some it =>
    { ret := .file it.addr, img := img,
      svc := svc.set_opened_file dir { it with ref_count := it.ref_count + 1 }, calls := [] }
  | none =>
    let dl_file := dir ++ "/" ++ COMMIT_FILE_NAME
    if BKDL.check_downloaded env dl_file then
      let r := img.__open_ro_file svc env dl_file
      { ret := .file env.new_RefFile, img := r.2.1,
        svc := svc.set_opened_file dir
          { addr := env.new_RefFile, m_file := r.1.map FileSystem.Sys.plain, key := dir,
            ref_count := 1 },
        calls := r.2.2 }
    else if img.repoBlobUrl == "" then
      { ret := .null, img := img.set_failed "empty repoBlobUrl", svc := svc, calls := [] }
    else
      let url := img.remote_url digest
      match env.remote_open url with
      | (none, errno) =>
        { ret := .null,
          img := if errno == EPERM then img.set_auth_failed
                 else img.set_failed ("failed to open remote file " ++ url),
          svc := svc, calls := [.remote_open url] }
      | (some remote_file, _) => img.open_remote_switch svc env dir digest url remote_file

/-- An image with no failure recorded, no `download` member and a base URL
without a trailing `/`. -/
def blank : ImageFile :=
  { m_status := 0, m_exception := "", repoBlobUrl := "https://registry/v2/blobs",
    download := none, lowersKey := "", lower_file_keys := [] }

/-- An image whose configuration enables the download with `delay = 0` and
`delayExtra = 5`. -/
def downloading_image : ImageFile :=
  { blank with download := some { enable := 1, delay := 0, delayExtra := 5, maxMBps := 0,
                                  tryCnt := 3 } }

/-- A service with the engine `ioEngine` and nothing opened. -/
def no_layers (ioEngine : Int) : ImageService :=
  { ioEngine := ioEngine, opened_files := fun _ => none, opened_lowers := fun _ => none }

/-- A layer with no commit file whose remote file opens. -/
def remote_layer : LayerEnv :=
  { new_localfs_adaptor := true
    access := fun _ => -1
    open_localfile_adaptor := fun _ _ _ => some 50
    new_aligned_file_adaptor := fun f => some (f + 1)
    decode := FileSystem.opens
    remote_open := fun _ => (some 6, 0)
    srcfs_open := fun _ => some 8
    rand := 1804289383
    new_RefFile := 1000 }

/-- A layer whose commit file exists and opens. -/
def local_layer : LayerEnv :=
  { remote_layer with access := fun _ => 0 }

/-- A layer whose commit file exists and does not open. -/
def broken_commit : LayerEnv :=
  { remote_layer with access := fun _ => 0, open_localfile_adaptor := fun _ _ _ => none }

/-- The string that `open_lowers` takes as the key of a layer (lines 232 to 237):
`file()` when it is not empty, `dir()` otherwise. -/
def LayerConfig.key (l : LayerConfig) : String :=
  if l.file != "" then l.file else l.dir

/-- The call `v.resize(n)` of a vector of strings. -/
def resize (v : List String) (n : Nat) : List String :=
  v.take n ++ List.replicate (n - v.length) ""

/-- The loop of `open_lowers` from index `i` on, over the layers that are left:
the image after it and the flag `has_error`. -/
def ImageFile.open_lowers_loop (img : ImageFile) : Nat → List LayerConfig → ImageFile × Bool
  | _, [] => (img, false)
  | i, l :: ls =>
    if l.file != "" then
      ImageFile.open_lowers_loop
        { img with lower_file_keys := img.lower_file_keys.set i l.file
                   lowersKey := img.lowersKey ++ (l.file ++ ";") } (i + 1) ls
    else if l.dir != "" then
      ImageFile.open_lowers_loop
        { img with lower_file_keys := img.lower_file_keys.set i l.dir
                   lowersKey := img.lowersKey ++ (l.dir ++ ";") } (i + 1) ls
    else
      ({ img with m_exception := if img.m_exception == "" then
                    "config error for layer " ++ toString i else img.m_exception }, true)

/-- What `open_lowers` has done when it leaves its first part. -/
structure Lowers where
  /-- the lookup in `opened_lowers` was made and found nothing: the layers
  are opened next -/
  miss : Bool
  /-- the pointer returned when the function returns in its first part -/
  ret : Ret
  has_error : Bool
  img : ImageFile
  svc : ImageService

/-- The first part of `ImageFile::open_lowers` (lines 221 to 251): the key of the
list is built and looked up in `opened_lowers`. The opening of the layers that
follows a miss is not embedded. -/
def ImageFile.open_lowers (img : ImageFile) (svc : ImageService) (lowers : List LayerConfig) :
    Lowers :=
  if lowers.length = 0 then
    { miss := false, ret := .null, has_error := false, img := img, svc := svc }
  else
    let img := { img with lowersKey := "" }
    let img := { img with lower_file_keys := resize img.lower_file_keys lowers.length }
    match img.open_lowers_loop 0 lowers with
    | (img, true) => { miss := false, ret := .null, has_error := true, img := img, svc := svc }
    | (img, false) =>
      match svc.opened_lowers img.lowersKey with
      | some it =>
        { miss := false, ret := .file it.addr, has_error := false, img := img
          svc := svc.set_opened_lowers img.lowersKey { it with ref_count := it.ref_count + 1 } }
      | none => { miss := true, ret := .null, has_error := false, img := img, svc := svc }

/-- Three layers: two given by a file, one by a directory. -/
def three_layers : List LayerConfig :=
  [{ file := "/l/0", dir := "", digest := "", size := 0 },
   { file := "", dir := "/l/1", digest := "sha256:1", size := 10 },
   { file := "/l/2", dir := "/other", digest := "", size := 0 }]

/-- The same keys as `three_layers` from other configurations. -/
def three_layers_again : List LayerConfig :=
  [{ file := "/l/0", dir := "/x", digest := "", size := 0 },
   { file := "/l/1", dir := "", digest := "", size := 0 },
   { file := "/l/2", dir := "", digest := "sha256:2", size := 4 }]

/-! ## The Switch File: theorems -/

namespace FileSystem

theorem countP_set_add {α : Type} (p : α → Bool) (l : List α) (i : Nat) (a b : α)
    (h : l.get? i = some b) :
    (l.set i a).countP p + (if p b then 1 else 0) = l.countP p + (if p a then 1 else 0) := by
  induction i generalizing l with
  | zero =>
    match l, h with
    | x :: xs, h =>
      have hx : x = b := by simpa using h
      subst hx
      simp only [List.set_cons_zero, List.countP_cons]
      omega
  | succ j ih =>
    match l, h with
    | x :: xs, h =>
      have hj : xs.get? j = some b := by simpa using h
      have := ih xs hj
      simp only [List.set_cons_succ, List.countP_cons]
      omega

theorem SwitchFile.do_switch_cases (env : DecodeStack) (sf : SwitchFile) :
    sf.do_switch env = (-1, sf) ∨
    ∃ zf, sf.do_switch env =
      (0, { sf with m_old := sf.m_file, m_file := some zf, local_path := true }) := by
  unfold SwitchFile.do_switch
  split
  · exact Or.inl rfl
  · split
    · exact Or.inl rfl
    · exact Or.inr ⟨_, rfl⟩

theorem SwitchFile.drain_cases (env : DecodeStack) (sf : SwitchFile) :
    (0 < sf.io_count ∧ sf.drain env = .sleep .drain_loop sf) ∨
    (sf.io_count ≤ 0 ∧ sf.drain env = .ret 0 sf) ∨
    (sf.io_count ≤ 0 ∧ ∃ zf, sf.drain env =
      .ret 0 { sf with m_old := sf.m_file, m_file := some zf, local_path := true, state := 0 }) := by
  unfold SwitchFile.drain
  by_cases h : sf.io_count > 0
  · left; simp [h]
  · right
    have h' : sf.io_count ≤ 0 := by omega
    rcases sf.do_switch_cases env with e | ⟨zf, e⟩
    · left; simp [h, e, h']
    · right; simp [h, e, h']

/-- The outcomes of `FORWARD` from its entry. -/
theorem FORWARD_cases (env : DecodeStack) (sf : SwitchFile) :
    (sf.state = 0 ∧ FORWARD env sf = .call sf.m_file { sf with io_count := sf.io_count + 1 }) ∨
    (sf.state = 2 ∧ FORWARD env sf = .sleep .state_loop sf) ∨
    (sf.state ≠ 0 ∧ sf.state ≠ 2 ∧ 0 < sf.io_count ∧
      FORWARD env sf = .sleep .drain_loop { sf with state := 2 }) ∨
    (sf.state ≠ 0 ∧ sf.state ≠ 2 ∧ sf.io_count ≤ 0 ∧
      FORWARD env sf = .call sf.m_file { sf with state := 2, io_count := sf.io_count + 1 }) ∨
    (sf.state ≠ 0 ∧ sf.state ≠ 2 ∧ sf.io_count ≤ 0 ∧ ∃ zf, FORWARD env sf =
      .call (some zf) { sf with m_old := sf.m_file, m_file := some zf, local_path := true,
                                state := 0, io_count := sf.io_count + 1 }) := by
  by_cases h0 : sf.state = 0
  · left
    simp [FORWARD, SwitchFile.check_switch, h0, Forward.after]
  by_cases h2 : sf.state = 2
  · right; left
    simp [FORWARD, SwitchFile.check_switch, SwitchFile.wait_state, h2, Forward.after]
  right; right
  rcases SwitchFile.drain_cases env { sf with state := 2 } with ⟨h, e⟩ | ⟨h, e⟩ | ⟨h, zf, e⟩
  · left
    simp at h
    simp [FORWARD, SwitchFile.check_switch, h0, h2, e, Forward.after, h]
  · right; left
    simp at h
    simp [FORWARD, SwitchFile.check_switch, h0, h2, e, Forward.after, h]
  · right; right
    simp at h
    simp [FORWARD, SwitchFile.check_switch, h0, h2, e, Forward.after, h]

/-- The outcomes of `FORWARD` resumed from a sleep. -/
theorem FORWARD_wake_cases (env : DecodeStack) (sf : SwitchFile) (a : Sleep) :
    (a = .state_loop ∧ sf.state ≠ 0 ∧ FORWARD_wake env sf a = .sleep .state_loop sf) ∨
    (a = .state_loop ∧ sf.state = 0 ∧
      FORWARD_wake env sf a = .call sf.m_file { sf with io_count := sf.io_count + 1 }) ∨
    (a = .drain_loop ∧ 0 < sf.io_count ∧ FORWARD_wake env sf a = .sleep .drain_loop sf) ∨
    (a = .drain_loop ∧ sf.io_count ≤ 0 ∧
      FORWARD_wake env sf a = .call sf.m_file { sf with io_count := sf.io_count + 1 }) ∨
    (a = .drain_loop ∧ sf.io_count ≤ 0 ∧ ∃ zf, FORWARD_wake env sf a =
      .call (some zf) { sf with m_old := sf.m_file, m_file := some zf, local_path := true,
                                state := 0, io_count := sf.io_count + 1 }) := by
  cases a with
  | state_loop =>
    by_cases h0 : sf.state = 0
    · right; left
      simp [FORWARD_wake, SwitchFile.check_switch_wake, SwitchFile.wait_state, h0, Forward.after]
    · left
      simp [FORWARD_wake, SwitchFile.check_switch_wake, SwitchFile.wait_state, h0, Forward.after]
  | drain_loop =>
    right; right
    rcases SwitchFile.drain_cases env sf with ⟨h, e⟩ | ⟨h, e⟩ | ⟨h, zf, e⟩
    · left
      simp [FORWARD_wake, SwitchFile.check_switch_wake, e, Forward.after, h]
    · right; left
      simp [FORWARD_wake, SwitchFile.check_switch_wake, e, Forward.after, h]
    · right; right
      simp [FORWARD_wake, SwitchFile.check_switch_wake, e, Forward.after, h]

theorem Sys.Inv.forward_step {s : Sys} (h : s.Inv) (ops' : List Op) (old : Op) (audit : Bool)
    (fw : Forward)
    (hfl : ops'.countP Op.in_flight + (if old.in_flight then 1 else 0) =
      s.ops.countP Op.in_flight + (if (Op.of_forward audit fw).in_flight then 1 else 0))
    (hdr : ops'.countP Op.draining + (if old.draining then 1 else 0) =
      s.ops.countP Op.draining + (if (Op.of_forward audit fw).draining then 1 else 0))
    (hmem : ∀ x ∈ ops', x ∈ s.ops ∨ x = Op.of_forward audit fw)
    (hfw : (old = .returned ∧ ∃ env, fw = FORWARD env s.sf) ∨
      (∃ a au env, old = .sleeping a au ∧ old ∈ s.ops ∧ fw = FORWARD_wake env s.sf a)) :
    Sys.Inv { s with sf := fw.sf, ops := ops' } := by
  obtain ⟨hc, hb, hs, hp, hd1, hd, hl⟩ := h
  unfold Sys.in_flight at hc
  rcases hfw with ⟨rfl, env, rfl⟩ | ⟨a, au, env, rfl, hin, rfl⟩
  · rcases FORWARD_cases env s.sf with ⟨h0, e⟩ | ⟨h2, e⟩ | ⟨h0, h2, hio, e⟩ | ⟨h0, h2, hio, e⟩ |
      ⟨h0, h2, hio, zf, e⟩
    all_goals (rw [e] at hfl hdr hmem ⊢; simp [Op.of_forward, Op.in_flight, Op.draining] at hfl hdr hmem)
    · refine ⟨?_, ?_, ?_, ?_, ?_, ?_, ?_⟩ <;> simp only [Sys.in_flight, Forward.sf]
      · omega
      · intro f a hfa
        rcases hmem _ hfa with hx | hx
        · exact hb f a hx
        · simp at hx; exact hx.1
      · exact hs
      · exact hp
      · omega
      · intro hpos; exact hd (by omega)
      · exact hl
    · refine ⟨?_, ?_, ?_, ?_, ?_, ?_, ?_⟩ <;> simp only [Sys.in_flight, Forward.sf]
      · omega
      · intro f a hfa
        rcases hmem _ hfa with hx | hx
        · exact hb f a hx
        · simp at hx
      · exact hs
      · exact hp
      · omega
      · intro hpos; exact hd (by omega)
      · exact hl
    · have hz : s.ops.countP Op.draining = 0 := by
        by_contra hne
        exact h2 (hd (by omega))
      refine ⟨?_, ?_, ?_, ?_, ?_, ?_, ?_⟩ <;> simp only [Sys.in_flight, Forward.sf]
      · omega
      · intro f a hfa
        rcases hmem _ hfa with hx | hx
        · exact hb f a hx
        · simp at hx
      · simp
      · intro hpe; exact absurd (hp hpe).1 h0
      · omega
      · intro _; trivial
      · intro hlp; exact absurd (hl hlp) h0
    · have hz : s.ops.countP Op.draining = 0 := by
        by_contra hne
        exact h2 (hd (by omega))
      refine ⟨?_, ?_, ?_, ?_, ?_, ?_, ?_⟩ <;> simp only [Sys.in_flight, Forward.sf]
      · omega
      · intro f a hfa
        rcases hmem _ hfa with hx | hx
        · exact hb f a hx
        · simp at hx; exact hx.1
      · simp
      · intro hpe; exact absurd (hp hpe).1 h0
      · omega
      · intro _; trivial
      · intro hlp; exact absurd (hl hlp) h0
    · have hz : s.ops.countP Op.draining = 0 := by
        by_contra hne
        exact h2 (hd (by omega))
      have hz2 : s.ops.countP Op.in_flight = 0 := by omega
      refine ⟨?_, ?_, ?_, ?_, ?_, ?_, ?_⟩ <;> simp only [Sys.in_flight, Forward.sf]
      · omega
      · intro f a hfa
        rcases hmem _ hfa with hx | hx
        · have := (List.countP_eq_zero.1 hz2) _ hx
          simp [Op.in_flight] at this
        · simp at hx; exact hx.1
      · simp
      · intro hpe; exact absurd (hp hpe).1 h0
      · omega
      · intro hpos; omega
      · intro _; trivial
  · have hold : (Op.sleeping a au).draining = true → s.sf.state = 2 ∧ s.ops.countP Op.draining = 1 := by
      intro hdra
      have hpos : 0 < s.ops.countP Op.draining := List.countP_pos_iff.2 ⟨_, hin, hdra⟩
      exact ⟨hd hpos, by omega⟩
    rcases FORWARD_wake_cases env s.sf a with ⟨rfl, h0, e⟩ | ⟨rfl, h0, e⟩ | ⟨rfl, hio, e⟩ |
      ⟨rfl, hio, e⟩ | ⟨rfl, hio, zf, e⟩
    all_goals (rw [e] at hfl hdr hmem ⊢; simp [Op.of_forward, Op.in_flight, Op.draining] at hfl hdr hmem hold)
    · refine ⟨?_, ?_, ?_, ?_, ?_, ?_, ?_⟩ <;> simp only [Sys.in_flight, Forward.sf]
      · omega
      · intro f a hfa
        rcases hmem _ hfa with hx | hx
        · exact hb f a hx
        · simp at hx
      · exact hs
      · exact hp
      · omega
      · intro hpos; exact hd (by omega)
      · exact hl
    · refine ⟨?_, ?_, ?_, ?_, ?_, ?_, ?_⟩ <;> simp only [Sys.in_flight, Forward.sf]
      · omega
      · intro f a hfa
        rcases hmem _ hfa with hx | hx
        · exact hb f a hx
        · simp at hx; exact hx.1
      · exact hs
      · exact hp
      · omega
      · intro hpos; exact hd (by omega)
      · exact hl
    · refine ⟨?_, ?_, ?_, ?_, ?_, ?_, ?_⟩ <;> simp only [Sys.in_flight, Forward.sf]
      · omega
      · intro f a hfa
        rcases hmem _ hfa with hx | hx
        · exact hb f a hx
        · simp at hx
      · exact hs
      · exact hp
      · omega
      · intro hpos; exact hd (by omega)
      · exact hl
    · refine ⟨?_, ?_, ?_, ?_, ?_, ?_, ?_⟩ <;> simp only [Sys.in_flight, Forward.sf]
      · omega
      · intro f a hfa
        rcases hmem _ hfa with hx | hx
        · exact hb f a hx
        · simp at hx; exact hx.1
      · exact hs
      · exact hp
      · omega
      · intro hpos; omega
      · exact hl
    · have hz2 : s.ops.countP Op.in_flight = 0 := by omega
      refine ⟨?_, ?_, ?_, ?_, ?_, ?_, ?_⟩ <;> simp only [Sys.in_flight, Forward.sf]
      · omega
      · intro f a hfa
        rcases hmem _ hfa with hx | hx
        · have := (List.countP_eq_zero.1 hz2) _ hx
          simp [Op.in_flight] at this
        · simp at hx; exact hx.1
      · simp
      · intro hpe
        have := (hp hpe).1
        omega
      · omega
      · intro hpos; omega
      · intro _; trivial

theorem SwitchFile.pread_snd (env : DecodeStack) (sf : SwitchFile) :
    (sf.pread env).2 = FORWARD env sf := by
  unfold SwitchFile.pread
  split <;> rfl

theorem SwitchFile.pread_fst (env : DecodeStack) (sf : SwitchFile) :
    (sf.pread env).1 = sf.local_path := by
  unfold SwitchFile.pread
  split <;> simp_all

theorem Sys.Inv.keep_exec {s : Sys} (h : s.Inv) (c : Choice) : (s.exec c).Inv := by
  cases c with
  | call is_pread env =>
    have key : ∀ audit : Bool, Sys.Inv
        (Sys.mk (FORWARD env s.sf).sf (s.ops ++ [Op.of_forward audit (FORWARD env s.sf)]) s.dl) := by
      intro audit
      refine h.forward_step _ .returned audit _ ?_ ?_ ?_ (Or.inl ⟨rfl, env, rfl⟩)
      · simp [List.countP_append, List.countP_cons, Op.in_flight]
      · simp [List.countP_append, List.countP_cons, Op.draining]
      · intro x hx
        simpa using hx
    cases is_pread with
    | false => exact key false
    | true =>
      simp only [Sys.exec, if_true, SwitchFile.pread_snd]
      exact key _
  | resume i env =>
    simp only [Sys.exec]
    cases hi : s.ops.get? i with
    | none => exact h
    | some o =>
      cases o with
      | sleeping a audit =>
        simp only []
        refine h.forward_step _ (.sleeping a audit) audit _ ?_ ?_ ?_
          (Or.inr ⟨a, audit, env, rfl, List.get?_mem hi, rfl⟩)
        · exact countP_set_add _ _ _ _ _ hi
        · exact countP_set_add _ _ _ _ _ hi
        · intro x hx
          exact List.mem_or_eq_of_mem_set hx
      | in_call f a =>
        simp only []
        obtain ⟨hc, hb, hs, hp, hd1, hd, hl⟩ := h
        unfold Sys.in_flight at hc
        have h1 := countP_set_add Op.in_flight _ _ .returned _ hi
        have h2 := countP_set_add Op.draining _ _ .returned _ hi
        simp [Op.in_flight, Op.draining] at h1 h2
        refine ⟨?_, ?_, ?_, ?_, ?_, ?_, ?_⟩ <;> simp only [Sys.in_flight, FORWARD_done]
        · omega
        · intro f' a' hfa
          rcases List.mem_or_eq_of_mem_set hfa with hx | hx
          · exact hb _ _ hx
          · simp at hx
        · exact hs
        · exact hp
        · omega
        · intro hpos; exact hd (by omega)
        · exact hl
      | returned => exact h
  | download_returns ok =>
    simp only [Sys.exec]
    split
    · rename_i hpe
      obtain ⟨hc, hb, hs, hp, hd1, hd, hl⟩ := h
      obtain ⟨h0, hlp⟩ := hp hpe
      have hz : s.ops.countP Op.draining = 0 := by
        by_contra hne
        have := hd (by omega)
        omega
      cases ok with
      | false =>
        refine ⟨hc, hb, hs, ?_, hd1, hd, hl⟩
        intro hx; simp at hx
      | true =>
        refine ⟨hc, hb, ?_, ?_, hd1, ?_, ?_⟩ <;> simp only [SwitchFile.download_returns]
        · simp
        · intro hx; simp at hx
        · intro hpos; simp; omega
        · intro hx; simp at hx; simp [hlp] at hx
    · exact h

theorem Sys.Inv.keep_run {s : Sys} (h : s.Inv) (cs : List Choice) : (s.run cs).Inv := by
  induction cs generalizing s with
  | nil => exact h
  | cons c cs ih => exact ih (h.keep_exec c)

theorem Sys.run_append (s : Sys) (cs ds : List Choice) :
    s.run (cs ++ ds) = (s.run cs).run ds := by
  simp [Sys.run, List.foldl_append]

theorem Sys.Inv.of_constructed {env : DecodeStack} {file : IFile} {path : Option String}
    {s : Sys} (h : Sys.constructed env file path s) : s.Inv := by
  have key : ∀ loc sf, new_switch_file env file loc path = some sf →
      sf.io_count = 0 ∧ sf.state = 0 ∧ sf.local_path = loc := by
    intro loc sf hsf
    unfold new_switch_file at hsf
    split at hsf
    · simp at hsf
    · simp at hsf
      subst hsf
      simp [SwitchFile.mk_source]
  rcases h with ⟨loc, sf, hsf, rfl⟩ | ⟨sf, hsf, rfl⟩
  · obtain ⟨h1, h2, h3⟩ := key _ _ hsf
    refine ⟨?_, ?_, ?_, ?_, ?_, ?_, ?_⟩ <;> simp [Sys.plain, Sys.in_flight, h1, h2]
  · obtain ⟨h1, h2, h3⟩ := key _ _ hsf
    refine ⟨?_, ?_, ?_, ?_, ?_, ?_, ?_⟩ <;> simp [Sys.with_download, Sys.in_flight, h1, h2, h3]

/-- What one scheduling step does to the fields of the Switch File: either the
backing stays, or the step ran `do_switch` with `io_count ≤ 0`, from the branch
`state == 1` or from the drain loop. -/
theorem Sys.exec_sf_cases (s : Sys) (c : Choice) :
    ((s.exec c).sf.m_file = s.sf.m_file ∧ (s.exec c).sf.local_path = s.sf.local_path ∧
      ((s.exec c).sf.state = s.sf.state ∨
       (s.sf.state ≠ 0 ∧ s.sf.state ≠ 2 ∧ (s.exec c).sf.state = 2) ∨
       (s.dl = .pending ∧ (s.exec c).sf.state = 1))) ∨
    (s.sf.io_count ≤ 0 ∧
      ((s.sf.state ≠ 0 ∧ s.sf.state ≠ 2) ∨ ∃ au, Op.sleeping .drain_loop au ∈ s.ops) ∧
      ∃ zf, (s.exec c).sf = s.sf.switched zf) := by
  have hcall : ∀ env, (((FORWARD env s.sf).sf.m_file = s.sf.m_file ∧
      (FORWARD env s.sf).sf.local_path = s.sf.local_path ∧
      ((FORWARD env s.sf).sf.state = s.sf.state ∨
       (s.sf.state ≠ 0 ∧ s.sf.state ≠ 2 ∧ (FORWARD env s.sf).sf.state = 2) ∨
       (s.dl = .pending ∧ (FORWARD env s.sf).sf.state = 1))) ∨
    (s.sf.io_count ≤ 0 ∧
      ((s.sf.state ≠ 0 ∧ s.sf.state ≠ 2) ∨ ∃ au, Op.sleeping .drain_loop au ∈ s.ops) ∧
      ∃ zf, (FORWARD env s.sf).sf = s.sf.switched zf)) := by
    intro env
    rcases FORWARD_cases env s.sf with ⟨h0, e⟩ | ⟨h2, e⟩ | ⟨h0, h2, hio, e⟩ | ⟨h0, h2, hio, e⟩ |
      ⟨h0, h2, hio, zf, e⟩
    · left; rw [e]; simp [Forward.sf]
    · left; rw [e]; simp [Forward.sf]
    · left; rw [e]; simp [Forward.sf, h0, h2]
    · left; rw [e]; simp [Forward.sf, h0, h2]
    · right; rw [e]; exact ⟨hio, Or.inl ⟨h0, h2⟩, zf, rfl⟩
  cases c with
  | call is_pread env =>
    cases is_pread with
    | false => exact hcall env
    | true =>
      simp only [Sys.exec, if_true, SwitchFile.pread_snd]
      exact hcall env
  | resume i env =>
    simp only [Sys.exec]
    cases hi : s.ops.get? i with
    | none => left; simp
    | some o =>
      cases o with
      | sleeping a audit =>
        simp only []
        rcases FORWARD_wake_cases env s.sf a with ⟨rfl, h0, e⟩ | ⟨rfl, h0, e⟩ | ⟨rfl, hio, e⟩ |
          ⟨rfl, hio, e⟩ | ⟨rfl, hio, zf, e⟩
        · left; rw [e]; simp [Forward.sf]
        · left; rw [e]; simp [Forward.sf]
        · left; rw [e]; simp [Forward.sf]
        · left; rw [e]; simp [Forward.sf]
        · right; rw [e]; exact ⟨hio, Or.inr ⟨audit, List.get?_mem hi⟩, zf, rfl⟩
      | in_call f a => left; simp [FORWARD_done]
      | returned => left; simp
  | download_returns ok =>
    simp only [Sys.exec]
    split
    · rename_i hpe
      left
      cases ok <;> simp [SwitchFile.download_returns, hpe]
    · left; simp

theorem SwitchFile.phase_le (sf : SwitchFile) : sf.phase ≤ 3 := by
  unfold SwitchFile.phase
  split_ifs <;> omega

theorem Sys.Inv.phase_exec {s : Sys} (h : s.Inv) (c : Choice) :
    s.sf.phase ≤ (s.exec c).sf.phase := by
  rcases s.exec_sf_cases c with ⟨_, hl, hst⟩ | ⟨_, _, zf, e⟩
  · rcases hst with hst | ⟨h0, h2, hst⟩ | ⟨hpe, hst⟩
    · simp [SwitchFile.phase, hl, hst]
    · have h1 : s.sf.state = 1 := by
        rcases h.state with h' | h' | h'
        · exact absurd h' h0
        · exact h'
        · exact absurd h' h2
      simp [SwitchFile.phase, hst, h1]
    · obtain ⟨h0, hlp⟩ := h.pending hpe
      simp [SwitchFile.phase, h0, hlp]
  · rw [e]
    have := s.sf.phase_le
    simpa [SwitchFile.phase, SwitchFile.switched] using this

theorem Sys.Inv.phase_run {s : Sys} (h : s.Inv) (cs : List Choice) :
    s.sf.phase ≤ (s.run cs).sf.phase := by
  induction cs generalizing s with
  | nil => exact le_refl _
  | cons c cs ih => exact le_trans (h.phase_exec c) (ih (h.keep_exec c))

/-- Once `local_path` is set no step runs `do_switch`: the backing stays. -/
theorem Sys.Inv.local_exec {s : Sys} (h : s.Inv) (hl : s.sf.local_path = true) (c : Choice) :
    (s.exec c).sf.m_file = s.sf.m_file ∧ (s.exec c).sf.local_path = true := by
  rcases s.exec_sf_cases c with ⟨hm, hl', _⟩ | ⟨_, hwho, _⟩
  · exact ⟨hm, hl'.trans hl⟩
  · have h0 := h.loc hl
    rcases hwho with ⟨h0', _⟩ | ⟨au, hin⟩
    · exact absurd h0 h0'
    · have := h.draining (List.countP_pos_iff.2 ⟨_, hin, rfl⟩)
      omega

theorem Sys.Inv.local_run {s : Sys} (h : s.Inv) (hl : s.sf.local_path = true)
    (cs : List Choice) :
    (s.run cs).sf.m_file = s.sf.m_file ∧ (s.run cs).sf.local_path = true := by
  induction cs generalizing s with
  | nil => exact ⟨rfl, hl⟩
  | cons c cs ih =>
    obtain ⟨hm, hl'⟩ := h.local_exec hl c
    obtain ⟨hm2, hl2⟩ := ih (h.keep_exec c) hl'
    exact ⟨hm2.trans hm, hl2⟩

/-- Whenever the commit file does not open, `check_switch` entered with `state = 1`
and nothing in flight returns with `state = 2` and everything else unchanged,
and from `state = 2` every later `check_switch` sleeps and sleeps again. -/
theorem check_switch_of_failed_open (env env' : DecodeStack) (sf : SwitchFile)
    (h1 : sf.state = 1) (hio : sf.io_count ≤ 0) (hfail : (sf.do_switch env).1 ≠ 0) :
    sf.check_switch env = .ret 0 { sf with state := 2 } ∧
    SwitchFile.check_switch env' { sf with state := 2 } =
      .sleep .state_loop { sf with state := 2 } ∧
    SwitchFile.check_switch_wake env' { sf with state := 2 } .state_loop =
      .sleep .state_loop { sf with state := 2 } := by
  have hio' : ¬ 0 < sf.io_count := by omega
  have hd : ({ sf with state := 2 } : SwitchFile).do_switch env = (-1, { sf with state := 2 }) := by
    rcases sf.do_switch_cases env with e | ⟨zf, e⟩
    · unfold SwitchFile.do_switch at e ⊢
      simp only []
      split <;> rename_i h
      · rfl
      · rw [h] at e
        simp only [] at e
        split <;> rename_i h'
        · rfl
        · rw [h'] at e
          simp at e
    · rw [e] at hfail
      simp at hfail
  refine ⟨?_, ?_, ?_⟩
  · simp [SwitchFile.check_switch, SwitchFile.drain, h1, hio', hd]
  · simp [SwitchFile.check_switch, SwitchFile.wait_state]
  · simp [SwitchFile.check_switch_wake, SwitchFile.wait_state]

/-- C1 (the code departs from the claim): on the Switch File `ready` (`state = 1`,
`io_count = 0`, remote backing `7`) with a commit file that does not open,
`check_switch` returns with `m_file` and `local_path` unchanged but with
`state = 2`, not `0`; a later `check_switch` does not return at once: it sleeps
in `while (state != 0)`, and sleeps again whenever it is woken. -/
theorem check_switch_failed_open_leaves_state_2 :
    ready.state = 1 ∧ ready.io_count = 0 ∧ (ready.do_switch open_fails).1 ≠ 0 ∧
    ready.check_switch open_fails = .ret 0 { ready with state := 2 } ∧
    SwitchFile.check_switch opens { ready with state := 2 } =
      .sleep .state_loop { ready with state := 2 } ∧
    SwitchFile.check_switch_wake opens { ready with state := 2 } .state_loop =
      .sleep .state_loop { ready with state := 2 } := by
  decide

theorem fresh_constructed : Sys.constructed opens 6 (some commit_path) fresh :=
  Or.inr ⟨_, rfl, rfl⟩

/-- C4: along every schedule of a constructed Switch File, a step in which
`do_switch` replaces the backing (`m_file` or `local_path` changes) starts with
`io_count = 0` and with no operation inside the forwarded call; from then on
`m_file` stays the new backing and every operation inside the forwarded call
runs on it. -/
theorem swap_only_when_drained (env : DecodeStack) (file : IFile) (path : Option String)
    (s0 : Sys) (h0 : Sys.constructed env file path s0) (cs : List Choice) (c : Choice)
    (hswap : ((s0.run cs).exec c).sf.m_file ≠ (s0.run cs).sf.m_file ∨
      ((s0.run cs).exec c).sf.local_path ≠ (s0.run cs).sf.local_path) :
    (s0.run cs).sf.io_count = 0 ∧
    (∀ o ∈ (s0.run cs).ops, o.in_flight = false) ∧
    ∀ ds : List Choice,
      (((s0.run cs).exec c).run ds).sf.m_file = ((s0.run cs).exec c).sf.m_file ∧
      ∀ f a, Op.in_call f a ∈ (((s0.run cs).exec c).run ds).ops →
        f = ((s0.run cs).exec c).sf.m_file := by
  have hinv : (s0.run cs).Inv := (Sys.Inv.of_constructed h0).keep_run cs
  rcases (s0.run cs).exec_sf_cases c with ⟨hm, hlp, _⟩ | ⟨hio, _, zf, e⟩
  · rcases hswap with hswap | hswap
    · exact absurd hm hswap
    · exact absurd hlp hswap
  · have hc := hinv.count
    unfold Sys.in_flight at hc
    have hz : (s0.run cs).ops.countP Op.in_flight = 0 := by omega
    refine ⟨by omega, ?_, ?_⟩
    · intro o ho
      have := (List.countP_eq_zero.1 hz) o ho
      simpa using this
    · intro ds
      have hl : ((s0.run cs).exec c).sf.local_path = true := by rw [e]; rfl
      have h1 := (hinv.keep_exec c).local_run hl ds
      refine ⟨h1.1, ?_⟩
      intro f a hfa
      rw [← h1.1]
      exact ((hinv.keep_exec c).keep_run ds).backing f a hfa

theorem swap_only_when_drained_witness :
    Sys.constructed opens 6 (some commit_path) fresh ∧
    ((fresh.run [.call false opens, .download_returns true, .call true opens,
        .resume 0 opens]).exec (.resume 1 opens)).sf.m_file ≠
      (fresh.run [.call false opens, .download_returns true, .call true opens,
        .resume 0 opens]).sf.m_file ∧
    (fresh.run [.call false opens, .download_returns true, .call true opens,
        .resume 0 opens]).sf.io_count = 0 :=
  ⟨fresh_constructed, by decide,
    (swap_only_when_drained opens 6 (some commit_path) fresh fresh_constructed
      [.call false opens, .download_returns true, .call true opens, .resume 0 opens]
      (.resume 1 opens) (Or.inl (by decide))).1⟩

/-- C5: along every schedule of a constructed Switch File (forwarded operations
and the return of its one download task, in any order) the phase
`Remote < ReadyToSwap < Swapping < Local` never decreases, and a Switch File
that has reached Local is Local after every later step. -/
theorem phase_never_decreases (env : DecodeStack) (file : IFile) (path : Option String)
    (s0 : Sys) (h0 : Sys.constructed env file path s0) (cs ds : List Choice) :
    (s0.run cs).sf.phase ≤ (s0.run (cs ++ ds)).sf.phase ∧
    ((s0.run cs).sf.phase = 3 → (s0.run (cs ++ ds)).sf.phase = 3) := by
  have hinv : (s0.run cs).Inv := (Sys.Inv.of_constructed h0).keep_run cs
  have h1 := hinv.phase_run ds
  rw [← Sys.run_append] at h1
  refine ⟨h1, ?_⟩
  intro h3
  have := (s0.run (cs ++ ds)).sf.phase_le
  omega

theorem phase_never_decreases_witness :
    Sys.constructed opens 6 (some commit_path) fresh ∧
    (fresh.run [.call true opens, .download_returns true]).sf.phase ≤
      (fresh.run ([.call true opens, .download_returns true] ++
        [.call true opens, .resume 0 opens, .resume 1 open_fails])).sf.phase :=
  ⟨fresh_constructed,
    (phase_never_decreases opens 6 (some commit_path) fresh fresh_constructed
      [.call true opens, .download_returns true]
      [.call true opens, .resume 0 opens, .resume 1 open_fails]).1⟩

/-- C9 (the claim fails as stated): on the Switch File built with a download whose
download has succeeded, with a commit file that opens, the first `pread` is
served by the new local object `101` and leaves the file Local, but it runs in
the branch without the audit. -/
theorem first_pread_runs_without_audit :
    (fresh.run [.download_returns true]).sf.state = 1 ∧
    ((fresh.run [.download_returns true]).sf.do_switch opens).1 = 0 ∧
    (fresh.run [.download_returns true]).sf.pread opens =
      (false, .call (some 101) ((fresh.run [.download_returns true]).sf.switched 101)) ∧
    ¬ ((fresh.run [.download_returns true]).sf.pread opens).1 = true := by
  decide

/-- C9 (amended): on a constructed Switch File whose download has succeeded and
which has not switched yet (`state = 1`), with a commit file that opens, the
first `pread` is served by the newly opened local backing, at once when no
operation is in flight and otherwise when it wakes in the drain loop with the
operations in flight gone, and it leaves the file in phase Local (`state = 0`,
`local_path`, the former backing in `m_old`); but it is not itself under the
audit, because `local_path` is tested before `check_switch` switches.  Every
`pread` called once `local_path` is set is under the audit. -/
theorem first_pread_switches_then_audit (env0 : DecodeStack) (file : IFile)
    (path : Option String) (s0 : Sys) (h0 : Sys.constructed env0 file path s0)
    (cs : List Choice) (env : DecodeStack) (f zf : IFile)
    (h1 : (s0.run cs).sf.state = 1)
    (hopen : env.open_localfile_adaptor (s0.run cs).sf.filepath = some f)
    (hzf : env.zfile_open_ro (env.new_tar_file_adaptor f) false = some zf) :
    ((s0.run cs).sf.pread env).1 = false ∧
    ((s0.run cs).sf.io_count ≤ 0 →
      ((s0.run cs).sf.pread env).2 = .call (some zf) ((s0.run cs).sf.switched zf)) ∧
    (0 < (s0.run cs).sf.io_count →
      ((s0.run cs).sf.pread env).2 = .sleep .drain_loop { (s0.run cs).sf with state := 2 } ∧
      ∀ sf' : SwitchFile, sf'.filepath = (s0.run cs).sf.filepath → sf'.io_count ≤ 0 →
        FORWARD_wake env sf' .drain_loop = .call (some zf) (sf'.switched zf)) ∧
    (∀ sf' : SwitchFile, (sf'.switched zf).state = 0 ∧ (sf'.switched zf).local_path = true ∧
      (sf'.switched zf).m_file = some zf ∧ (sf'.switched zf).m_old = sf'.m_file) ∧
    ∀ (es ds : List Choice) (env' : DecodeStack), (s0.run es).sf.local_path = true →
      (((s0.run es).run ds).sf.pread env').1 = true := by
  have hinv : (s0.run cs).Inv := (Sys.Inv.of_constructed h0).keep_run cs
  have hl : (s0.run cs).sf.local_path = false := by
    cases hlp : (s0.run cs).sf.local_path with
    | false => rfl
    | true =>
      have := hinv.loc hlp
      omega
  refine ⟨?_, ?_, ?_, fun sf' => ⟨rfl, rfl, rfl, rfl⟩, ?_⟩
  · rw [SwitchFile.pread_fst, hl]
  · intro hio
    have hio' : ¬ 0 < (s0.run cs).sf.io_count := by omega
    rw [SwitchFile.pread_snd]
    simp [FORWARD, SwitchFile.check_switch, SwitchFile.drain, SwitchFile.do_switch, h1, hio',
      hopen, hzf, Forward.after, SwitchFile.switched]
  · intro hio
    refine ⟨?_, ?_⟩
    · rw [SwitchFile.pread_snd]
      simp [FORWARD, SwitchFile.check_switch, SwitchFile.drain, h1, hio, Forward.after]
    · intro sf' hpath hio'
      have hio2 : ¬ 0 < sf'.io_count := by omega
      simp [FORWARD_wake, SwitchFile.check_switch_wake, SwitchFile.drain, SwitchFile.do_switch,
        hpath, hio2, hopen, hzf, Forward.after, SwitchFile.switched]
  · intro es ds env' hloc
    rw [SwitchFile.pread_fst]
    exact (((Sys.Inv.of_constructed h0).keep_run es).local_run hloc ds).2

theorem first_pread_switches_then_audit_witness :
    Sys.constructed opens 6 (some commit_path) fresh ∧
    (fresh.run [.download_returns true]).sf.state = 1 ∧
    opens.open_localfile_adaptor (fresh.run [.download_returns true]).sf.filepath = some 100 ∧
    opens.zfile_open_ro (opens.new_tar_file_adaptor 100) false = some 101 ∧
    ((fresh.run [.download_returns true]).sf.pread opens).1 = false :=
  ⟨fresh_constructed, by decide, rfl, rfl,
    (first_pread_switches_then_audit opens 6 (some commit_path) fresh fresh_constructed
      [.download_returns true] opens 100 101 (by decide) rfl rfl).1⟩

end FileSystem

/-! ## The copy engine and the download: theorems -/

namespace BKDL

theorem to_ssize_of_lt {bs : Nat} (h : bs < 2 ^ 63) : to_ssize bs = (bs : Int) := by
  have h1 : bs % 2 ^ 64 = bs := Nat.mod_eq_of_lt (by omega)
  unfold to_ssize
  rw [h1, if_pos h]

theorem write_at_of_le (d b : List Byte) (n : Nat) (hn : n ≤ d.length) :
    write_at d n b = d.take n ++ b ++ d.drop (n + b.length) := by
  simp [write_at, Nat.sub_eq_zero_of_le hn]

theorem write_at_take (d b : List Byte) (n r : Nat) (hn : n ≤ d.length) (hr : r ≤ b.length) :
    (write_at d n b).take (n + r) = d.take n ++ b.take r := by
  rw [write_at_of_le d b n hn, List.append_assoc]
  have hl : (d.take n).length = n := by simp [hn]
  rw [List.take_append_eq_append_take, hl]
  have h1 : (d.take n).take (n + r) = d.take n := by
    rw [List.take_take]; congr 1; omega
  rw [h1]
  congr 1
  rw [List.take_append_eq_append_take]
  have h2 : n + r - n = r := by omega
  have h3 : r - b.length = 0 := by omega
  simp [h2, h3]

theorem write_at_length (d b : List Byte) (n : Nat) (hn : n ≤ d.length) :
    n + b.length ≤ (write_at d n b).length := by
  rw [write_at_of_le d b n hn]
  simp
  omega

theorem resize_of_le (d : List Byte) (n : Nat) (hn : n ≤ d.length) : resize d n = d.take n := by
  simp [resize, Nat.sub_eq_zero_of_le hn]

theorem fill_of_le (buff data : List Byte) (h : data.length ≤ buff.length) :
    fill buff data = data ++ buff.drop data.length := by
  unfold fill
  apply List.take_of_length_le
  simp
  omega

theorem fill_length (buff data : List Byte) (h : data.length ≤ buff.length) :
    (fill buff data).length = buff.length := by
  rw [fill_of_le buff data h]
  simp
  omega

/-- One pass of the loop of `filecopy` in the ideal environment, from the test of
the `while` back to it. -/
theorem filecopy_from_pass {σ : Type} (E : CopyEnv σ) (dst : σ → List Byte) (src : List Byte)
    (bs : Nat) (retry_limit : Int) (h : E.Ideal dst src bs) (c : Int) (hc : c = to_ssize bs)
    (hr : 1 ≤ retry_limit) (n : Nat) (w : σ) (buff : List Byte) (hn : n ≤ src.length)
    (hb : buff.length = bs) (hd : (dst w).take n = src.take n) :
    ∃ w' buff', (∀ fuel, filecopy_from E bs retry_limit (fuel + 3) (.loop_test c) buff n w =
        filecopy_from E bs retry_limit fuel (.loop_test ((min bs (src.length - n) : Nat) : Int))
          buff' ((n + min bs (src.length - n) : Nat) : Int) w') ∧
      buff'.length = bs ∧
      (dst w').take (n + min bs (src.length - n)) = src.take (n + min bs (src.length - n)) ∧
      n + bs ≤ (dst w').length := by
  obtain ⟨hrd, hrw⟩ := h.pread w n hn
  obtain ⟨hwr, hww⟩ := h.pwrite (E.pread w bs n).2 (fill buff ((src.drop n).take bs)) n
  have hdl : ((src.drop n).take bs).length = min bs (src.length - n) := by simp
  have hfl := fill_length buff ((src.drop n).take bs) (by rw [hdl, hb]; omega)
  have hnd : n ≤ (dst w).length := by
    have := congrArg List.length hd
    simp at this
    omega
  refine ⟨(E.pwrite (E.pread w bs n).2 (fill buff ((src.drop n).take bs)) bs n).2,
    fill buff ((src.drop n).take bs), ?_, by rw [hfl, hb], ?_, ?_⟩
  · intro fuel
    have hr0 : ¬ retry_limit = 0 := by omega
    simp only [filecopy_from, hc, h.running, hrd, hwr]
    simp [hr0]
  · rw [hww, hrw]
    have htk : (fill buff ((src.drop n).take bs)).take bs = fill buff ((src.drop n).take bs) :=
      List.take_of_length_le (by rw [hfl, hb])
    rw [htk, write_at_take _ _ _ _ hnd (by rw [hfl, hb]; omega), hd,
      fill_of_le _ _ (by rw [hdl, hb]; omega)]
    rw [List.take_append_eq_append_take, hdl]
    simp only [Nat.sub_self, List.take_zero, List.append_nil]
    rw [List.take_take, List.take_add]
    congr 2
    omega
  · rw [hww, hrw]
    have := write_at_length (dst w) ((fill buff ((src.drop n).take bs)).take bs) n hnd
    simp [hfl, hb] at this
    omega

/-- The last pass of the loop in the ideal environment: fewer than `bs` bytes are
left, the read is short, the loop ends and the file is cut to the offset. -/
theorem filecopy_from_last {σ : Type} (E : CopyEnv σ) (dst : σ → List Byte) (src : List Byte)
    (bs : Nat) (retry_limit : Int) (h : E.Ideal dst src bs) (hbs : bs < 2 ^ 64)
    (c : Int) (hc : c = to_ssize bs)
    (hr : 1 ≤ retry_limit) (n : Nat) (w : σ) (buff : List Byte) (hn : n ≤ src.length)
    (hk : src.length - n < bs) (hb : buff.length = bs) (hd : (dst w).take n = src.take n) :
    ∃ fuel w', filecopy_from E bs retry_limit fuel (.loop_test c) buff n w =
      some ((src.length : Int), w') ∧ dst w' = src := by
  have hm : min bs (src.length - n) = src.length - n := by
    apply Nat.min_eq_right
    omega
  obtain ⟨w', buff', e, _, hd', hlen⟩ :=
    filecopy_from_pass E dst src bs retry_limit h c hc hr n w buff hn hb hd
  rw [hm] at e hd'
  have hL : n + (src.length - n) = src.length := by omega
  rw [hL] at e hd'
  refine ⟨1 + 3, (E.ftruncate w' (src.length : Int)).2, ?_, ?_⟩
  · rw [e 1]
    have hne : ¬ (((src.length - n : Nat) : Int) = to_ssize bs) := by
      have h1 : bs % 2 ^ 64 = bs := Nat.mod_eq_of_lt hbs
      unfold to_ssize
      rw [h1]
      split <;> omega
    simp [filecopy_from, hne]
  · rw [h.ftruncate, resize_of_le _ _ (by omega), hd']
    simp

theorem filecopy_from_copies {σ : Type} (E : CopyEnv σ) (dst : σ → List Byte) (src : List Byte)
    (bs : Nat) (retry_limit : Int) (h : E.Ideal dst src bs) (hbs : bs < 2 ^ 63)
    (hr : 1 ≤ retry_limit) (k : Nat) :
    ∀ (n : Nat) (w : σ) (buff : List Byte), n ≤ src.length → src.length - n < (k + 1) * bs →
      buff.length = bs → (dst w).take n = src.take n →
      ∃ fuel w', filecopy_from E bs retry_limit fuel (.loop_test bs) buff n w =
        some ((src.length : Int), w') ∧ dst w' = src := by
  have hc : (bs : Int) = to_ssize bs := (to_ssize_of_lt hbs).symm
  have hbs64 : bs < 2 ^ 64 := by omega
  induction k with
  | zero =>
    intro n w buff hn hk hb hd
    exact filecopy_from_last E dst src bs retry_limit h hbs64 _ hc hr n w buff hn (by omega) hb hd
  | succ k ih =>
    intro n w buff hn hk hb hd
    by_cases hlt : src.length - n < bs
    · exact filecopy_from_last E dst src bs retry_limit h hbs64 _ hc hr n w buff hn hlt hb hd
    · have hm : min bs (src.length - n) = bs := by
        apply Nat.min_eq_left
        omega
      have hk' : src.length - (n + bs) < (k + 1) * bs := by
        have : (k + 1 + 1) * bs = (k + 1) * bs + bs := by ring
        omega
      obtain ⟨w1, buff1, e1, hb1, hd1, _⟩ :=
        filecopy_from_pass E dst src bs retry_limit h _ hc hr n w buff hn hb hd
      rw [hm] at hd1 e1
      obtain ⟨fuel, w2, e2, hd2⟩ := ih (n + bs) w1 buff1 (by omega) hk' hb1 hd1
      exact ⟨fuel + 3, w2, by rw [e1 fuel, e2], hd2⟩

/-- C3: in the environment of the claim (the buffer is allocated, the running flag
stays true, every `pread` returns the `min(bs, L - offset)` source bytes at its
offset, every `pwrite` stores the buffer at its offset, `ftruncate` sets the
length), for every source whose length `L` is an `off_t`, every block size
`bs > 0` (a `size_t`) and every `retry_limit ≥ 1`, `filecopy` returns `L` and
leaves a destination of length `L` equal to the source byte for byte, whatever
the destination and the buffer held before. -/
theorem filecopy_copies_source {σ : Type} (E : CopyEnv σ) (dst : σ → List Byte)
    (src : List Byte) (bs : Nat) (retry_limit : Int) (w : σ) (h : E.Ideal dst src bs)
    (hL : src.length < 2 ^ 63) (hbs0 : 0 < bs) (hbs : bs < 2 ^ 64) (hr : 1 ≤ retry_limit) :
    ∃ fuel w', filecopy E fuel bs retry_limit w = some ((src.length : Int), w') ∧
      dst w' = src ∧ (dst w').length = src.length := by
  obtain ⟨b, hal, hbl⟩ := h.alloc w
  have hne : ¬ bs = 0 := by omega
  have key : ∃ fuel w', filecopy_from E bs retry_limit fuel (.loop_test (to_ssize bs)) b
      ((0 : Nat) : Int) w = some ((src.length : Int), w') ∧ dst w' = src := by
    by_cases hsmall : bs < 2 ^ 63
    · have hk : src.length - 0 < (src.length / bs + 1) * bs := by
        have := Nat.lt_div_mul_add hbs0 (a := src.length)
        have h2 : (src.length / bs + 1) * bs = src.length / bs * bs + bs := by ring
        omega
      rw [to_ssize_of_lt hsmall]
      exact filecopy_from_copies E dst src bs retry_limit h hsmall hr
        (src.length / bs) 0 w b (Nat.zero_le _) hk hbl (by simp)
    · exact filecopy_from_last E dst src bs retry_limit h hbs _ rfl hr 0 w b (Nat.zero_le _)
        (by omega) hbl (by simp)
  obtain ⟨fuel, w', e, hd⟩ := key
  refine ⟨fuel, w', ?_, hd, by rw [hd]⟩
  simp only [filecopy, hal]
  simpa [hne] using e

theorem copies_ideal (src : List Byte) (bs : Nat) : (copies src).Ideal id src bs where
  alloc := fun _ => ⟨List.replicate bs 0, rfl, by simp⟩
  running := fun _ => rfl
  pread := by
    intro w n _
    simp [copies]
  pwrite := by
    intro w buff n
    simp [copies]
  ftruncate := by
    intro w n
    simp [copies]

theorem filecopy_copies_source_witness :
    (copies [1, 2, 3, 4, 5, 6, 7]).Ideal id [1, 2, 3, 4, 5, 6, 7] 3 ∧
    ([1, 2, 3, 4, 5, 6, 7] : List Byte).length < 2 ^ 63 ∧ 0 < 3 ∧ 3 < 2 ^ 64 ∧
    (1 : Int) ≤ 1 ∧
    ∃ fuel w', filecopy (copies [1, 2, 3, 4, 5, 6, 7]) fuel 3 1 [9, 9, 9, 9, 9, 9, 9, 9, 9, 9] =
        some ((([1, 2, 3, 4, 5, 6, 7] : List Byte).length : Int), w') ∧
      id w' = [1, 2, 3, 4, 5, 6, 7] ∧
      (id w').length = ([1, 2, 3, 4, 5, 6, 7] : List Byte).length :=
  ⟨copies_ideal _ _, by decide, by decide, by decide, by decide,
    filecopy_copies_source (copies [1, 2, 3, 4, 5, 6, 7]) id [1, 2, 3, 4, 5, 6, 7] 3 1
      [9, 9, 9, 9, 9, 9, 9, 9, 9, 9] (copies_ideal _ _) (by decide) (by decide) (by decide)
      (by decide)⟩

theorem wait_gate_one {σ κ : Type} (E : BlobEnv σ κ) (w : World σ) :
    wait_gate E 1 w = if w.downloading then none else some w := by
  simp [wait_gate]

theorem wait_gate_of_clear {σ κ : Type} (E : BlobEnv σ κ) (fuel : Nat) (w : World σ)
    (h : w.downloading = false) : wait_gate E (fuel + 1) w = some w := by
  simp [wait_gate, h]

/-- While no sleep changes the flag, the loop `while (downloading)` entered with
the flag set does not end. -/
theorem wait_gate_of_set {σ κ : Type} (E : BlobEnv σ κ) (hq : E.Quiet) :
    ∀ (fuel : Nat) (w : World σ), w.downloading = true → wait_gate E fuel w = none
  | 0, _, _ => rfl
  | fuel + 1, w, h => by
    simp only [wait_gate, h, if_true]
    exact wait_gate_of_set E hq fuel _ (by rw [hq, h])

/-- The rest of `download_blob` leaves the flag clear on every return. -/
theorem download_blob_rest_resets {σ κ : Type} (E : BlobEnv σ κ) (fuel : Nat)
    (digest dst_file : String) (max_MB_ps max_try : Int) (w3 w' : World σ) (r : Bool)
    (ev : List Event)
    (h : download_blob_rest E fuel digest dst_file max_MB_ps max_try w3 = some (r, w', ev)) :
    w'.downloading = false := by
  unfold download_blob_rest at h
  simp only [] at h
  split at h
  · simp only [Option.some.injEq, Prod.mk.injEq] at h
    rw [← h.2.1]
  · cases ha : attempts E fuel (throttle max_MB_ps) digest (dst_file ++ ".download") dst_file
        max_try.toNat (E.open_localfile_adaptor w3 (dst_file ++ ".download")).2 with
    | none => rw [ha] at h; cases h
    | some x =>
      rw [ha] at h
      simp only [Option.map_some', Option.some.injEq, Prod.mk.injEq] at h
      rw [← h.2.1]

/-- A call of `download_blob` that returns after it passed the test of `running`
has set the flag, and leaves it clear. -/
theorem download_blob_resets {σ κ : Type} (E : BlobEnv σ κ) (fuel : Nat)
    (digest dst_file : String) (delay max_MB_ps max_try : Int) (w w' : World σ) (r : Bool)
    (ev : List Event)
    (h : download_blob E fuel digest dst_file delay max_MB_ps max_try w = some (r, w', ev))
    (hrun : E.running (E.thread_sleep w delay) = true) : w'.downloading = false := by
  unfold download_blob at h
  simp only [hrun, Bool.not_true, Bool.false_eq_true, if_false] at h
  cases hg : wait_gate E fuel (E.thread_sleep w delay) with
  | none => rw [hg] at h; cases h
  | some w2 =>
    rw [hg] at h
    exact download_blob_rest_resets E fuel digest dst_file max_MB_ps max_try _ w' r ev h

theorem holders_pos_of_holds {l : List Blob} {i : Nat} {b : Blob} (hi : l.get? i = some b)
    (hb : b.holds = true) : 1 ≤ l.countP Blob.holds := by
  have := FileSystem.countP_set_add Blob.holds l i (.returned false) b hi
  rw [hb] at this
  have hr : (Blob.returned false).holds = false := rfl
  rw [hr] at this
  simp only [if_true, Bool.false_eq_true, if_false] at this
  omega

theorem get?_lt {l : List Blob} {i : Nat} {b : Blob} (hi : l.get? i = some b) :
    i < l.length := by
  by_contra hge
  rw [List.get?_eq_none.2 (by omega)] at hi
  cases hi

theorem Gate.Inv.gate_finish {σ κ : Type} (E : BlobEnv σ κ) (fuel : Nat) {g : Gate σ}
    (h : g.Inv) (i : Nat) (a : BlobArgs) (hi : g.tasks.get? i = some (.holding a)) :
    (g.finish E fuel i a).Inv := by
  unfold Gate.Inv Gate.holders at *
  have h1 := holders_pos_of_holds hi rfl
  have hd : g.world.downloading = true := by
    cases hd : g.world.downloading with
    | true => rfl
    | false =>
      rw [hd] at h
      simp only [Bool.false_eq_true, if_false] at h
      omega
  rw [hd] at h
  unfold Gate.finish
  cases hr : download_blob_rest E fuel a.digest a.dst_file a.max_MB_ps a.max_try g.world with
  | none =>
    have := FileSystem.countP_set_add Blob.holds g.tasks i (.holding a) _ hi
    simp only [Blob.holds, if_true] at this
    simp only [hd, if_true] at h ⊢
    omega
  | some x =>
    obtain ⟨r, w, ev⟩ := x
    have hw := download_blob_rest_resets E fuel _ _ _ _ _ w r ev hr
    have := FileSystem.countP_set_add Blob.holds g.tasks i (.returned r) _ hi
    simp only [Blob.holds, if_true, Bool.false_eq_true, if_false] at this
    simp only [hw, Bool.false_eq_true, if_false]
    simp only [if_true] at h
    omega

theorem Gate.Inv.gate_claim {σ κ : Type} (E : BlobEnv σ κ) (fuel : Nat) {g : Gate σ}
    (h : g.Inv) (i : Nat) (a : BlobArgs) (through : Bool) (b : Blob)
    (hi : g.tasks.get? i = some b) (hb : b.holds = false) :
    (Gate.claim E fuel g i a through).Inv := by
  have hset : ∀ c : Blob, (g.tasks.set i c).countP Blob.holds =
      g.tasks.countP Blob.holds + (if c.holds then 1 else 0) := by
    intro c
    have := FileSystem.countP_set_add Blob.holds g.tasks i c b hi
    simpa [hb] using this
  unfold Gate.claim
  rw [wait_gate_one]
  cases hd : g.world.downloading with
  | true =>
    unfold Gate.Inv Gate.holders at *
    simp only [if_true]
    rw [hset]
    simp [Blob.holds, h, hd]
  | false =>
    simp only [Bool.false_eq_true, if_false]
    have h3 : Gate.Inv { world := { g.world with downloading := true },
                         tasks := g.tasks.set i (.holding a) } := by
      unfold Gate.Inv Gate.holders at *
      simp only [hd, Bool.false_eq_true, if_false] at h
      simp only [if_true]
      rw [hset]
      simp [Blob.holds, h]
    cases through with
    | false => exact h3
    | true =>
      simp only [if_true]
      refine Gate.Inv.gate_finish E fuel h3 i a ?_
      simp [get?_lt hi]

theorem Gate.Inv.gate_exec {σ κ : Type} (E : BlobEnv σ κ) (hq : E.Quiet) (fuel : Nat)
    {g : Gate σ} (h : g.Inv) (c : GateChoice σ) : (g.exec E fuel c).Inv := by
  cases c with
  | call a =>
    unfold Gate.Inv Gate.holders at *
    simp [Gate.exec, List.countP_append, List.countP_cons, Blob.holds, h]
  | outside s => exact h
  | resume i through =>
    simp only [Gate.exec]
    cases hi : g.tasks.get? i with
    | none => exact h
    | some b =>
      cases b with
      | delaying a =>
        simp only []
        have hw : Gate.Inv { g with world := E.thread_sleep g.world a.delay } := by
          unfold Gate.Inv Gate.holders at *
          simp only [hq g.world a.delay]
          exact h
        cases hrun : E.running (E.thread_sleep g.world a.delay) with
        | false =>
          simp only [Bool.not_false, if_true]
          unfold Gate.Inv Gate.holders at *
          have := FileSystem.countP_set_add Blob.holds g.tasks i (.returned false) _ hi
          simp only [Blob.holds, Bool.false_eq_true, if_false] at this
          simp only [hq g.world a.delay] at hw ⊢
          omega
        | true =>
          simp only [Bool.not_true, Bool.false_eq_true, if_false]
          exact Gate.Inv.gate_claim E fuel hw i a through _ hi rfl
      | polling a =>
        have hw : Gate.Inv { g with world := E.thread_sleep g.world 1 } := by
          unfold Gate.Inv Gate.holders at *
          simp only [hq g.world 1]
          exact h
        exact Gate.Inv.gate_claim E fuel hw i a through _ hi rfl
      | holding a =>
        cases through with
        | false => exact h
        | true => exact Gate.Inv.gate_finish E fuel h i a hi
      | returned r => exact h

theorem Gate.Inv.gate_run {σ κ : Type} (E : BlobEnv σ κ) (hq : E.Quiet) (fuel : Nat)
    {g : Gate σ} (h : g.Inv) (cs : List (GateChoice σ)) : (g.run E fuel cs).Inv := by
  induction cs generalizing g with
  | nil => exact h
  | cons c cs ih => exact ih (Gate.Inv.gate_exec E hq fuel h c)

theorem Gate.Inv.gate_init {σ : Type} (s : σ) : (Gate.init s).Inv := by
  simp [Gate.Inv, Gate.init, Gate.holders]

/-- The loop `while (downloading)` is its run up to the first sleep, followed,
when it did not end there, by the loop again after `photon::thread_sleep(1)`:
the steps of a polling call in the schedule are the passes of `wait_gate`. -/
theorem wait_gate_succ {σ κ : Type} (E : BlobEnv σ κ) (fuel : Nat) (w : World σ) :
    wait_gate E (fuel + 1) w =
      match wait_gate E 1 w with
      | some w2 => some w2
      | none => wait_gate E fuel (E.thread_sleep w 1) := by
  rw [wait_gate_one]
  cases hd : w.downloading <;> simp [wait_gate, hd]

theorem Gate.finish_tasks {σ κ : Type} (E : BlobEnv σ κ) (fuel : Nat) (g : Gate σ) (j : Nat)
    (a : BlobArgs) : ∃ x, (g.finish E fuel j a).tasks = g.tasks.set j x := by
  unfold Gate.finish
  cases download_blob_rest E fuel a.digest a.dst_file a.max_MB_ps a.max_try g.world with
  | none => exact ⟨_, rfl⟩
  | some x => exact ⟨_, rfl⟩

theorem Gate.claim_tasks {σ κ : Type} (E : BlobEnv σ κ) (fuel : Nat) (g : Gate σ) (j : Nat)
    (a : BlobArgs) (through : Bool) :
    ∃ x, (Gate.claim E fuel g j a through).tasks = g.tasks.set j x := by
  unfold Gate.claim
  cases wait_gate E 1 g.world with
  | none => exact ⟨_, rfl⟩
  | some w2 =>
    cases through with
    | false => exact ⟨_, rfl⟩
    | true =>
      obtain ⟨x, hx⟩ := Gate.finish_tasks E fuel
        { world := { w2 with downloading := true }, tasks := g.tasks.set j (.holding a) } j a
      refine ⟨x, ?_⟩
      simp only [if_true]
      rw [hx, List.set_set]

/-- A step of the call `j` leaves every other call where it is. -/
theorem Gate.exec_resume_other {σ κ : Type} (E : BlobEnv σ κ) (fuel : Nat) (g : Gate σ)
    (j : Nat) (through : Bool) (i : Nat) (hij : j ≠ i) :
    (g.exec E fuel (.resume j through)).tasks.get? i = g.tasks.get? i := by
  simp only [Gate.exec]
  cases hj : g.tasks.get? j with
  | none => rfl
  | some b =>
    cases b with
    | delaying a =>
      simp only []
      split
      · simp [List.getElem?_set_ne hij]
      · obtain ⟨x, hx⟩ := Gate.claim_tasks E fuel
          { g with world := E.thread_sleep g.world a.delay } j a through
        rw [hx]
        simp [List.getElem?_set_ne hij]
    | polling a =>
      obtain ⟨x, hx⟩ := Gate.claim_tasks E fuel
        { g with world := E.thread_sleep g.world 1 } j a through
      simp only []
      rw [hx]
      simp [List.getElem?_set_ne hij]
    | holding a =>
      cases through with
      | false => rfl
      | true =>
        obtain ⟨x, hx⟩ := Gate.finish_tasks E fuel g j a
        simp only [if_true]
        rw [hx]
        simp [List.getElem?_set_ne hij]
    | returned r => rfl

/-- Whatever step makes a call that holds the flag return, the flag is clear
after it. -/
theorem Gate.exec_holder_returns {σ κ : Type} (E : BlobEnv σ κ) (fuel : Nat) (g : Gate σ)
    (c : GateChoice σ) (i : Nat) (a : BlobArgs) (r : Bool)
    (hi : g.tasks.get? i = some (.holding a))
    (hr : (g.exec E fuel c).tasks.get? i = some (.returned r)) :
    (g.exec E fuel c).world.downloading = false := by
  have hlt := get?_lt hi
  cases c with
  | call b =>
    simp only [Gate.exec, List.get?_eq_getElem?, List.getElem?_append_left hlt] at hr
    rw [List.get?_eq_getElem?] at hi
    rw [hi] at hr
    cases hr
  | outside s =>
    simp only [Gate.exec] at hr
    rw [hi] at hr
    cases hr
  | resume j through =>
    by_cases hij : j = i
    · subst hij
      simp only [Gate.exec, hi] at hr ⊢
      cases through with
      | false =>
        simp only [Bool.false_eq_true, if_false] at hr
        rw [hi] at hr
        cases hr
      | true =>
        simp only [if_true] at hr ⊢
        unfold Gate.finish at hr ⊢
        cases hd : download_blob_rest E fuel a.digest a.dst_file a.max_MB_ps a.max_try
            g.world with
        | none =>
          rw [hd] at hr
          simp [hlt] at hr
        | some x =>
          obtain ⟨r', w, ev⟩ := x
          exact download_blob_rest_resets E fuel _ _ _ _ _ w r' ev hd
    · rw [Gate.exec_resume_other E fuel g j through i hij, hi] at hr
      cases hr

/-- A suspended call that the scheduler runs through does what `download_blob`
does when run in one piece on the world of that moment. -/
theorem Gate.exec_eq_download_blob {σ κ : Type} (E : BlobEnv σ κ) (hq : E.Quiet) (fuel : Nat)
    (g : Gate σ) (i : Nat) (a : BlobArgs) (r : Bool) (w' : World σ) (ev : List Event)
    (hi : g.tasks.get? i = some (.delaying a))
    (h : download_blob E fuel a.digest a.dst_file a.delay a.max_MB_ps a.max_try g.world =
      some (r, w', ev)) :
    (g.exec E fuel (.resume i true)).tasks.get? i = some (.returned r) ∧
    (g.exec E fuel (.resume i true)).world = w' := by
  have hlt := get?_lt hi
  unfold download_blob at h
  simp only [Gate.exec, hi]
  cases hrun : E.running (E.thread_sleep g.world a.delay) with
  | false =>
    simp only [hrun, Bool.not_false, if_true, Option.some.injEq, Prod.mk.injEq] at h ⊢
    obtain ⟨h1, h2, _⟩ := h
    subst h1 h2
    simp [hlt]
  | true =>
    simp only [hrun, Bool.not_true, Bool.false_eq_true, if_false] at h ⊢
    cases hd : (E.thread_sleep g.world a.delay).downloading with
    | true =>
      rw [wait_gate_of_set E hq fuel _ hd] at h
      cases h
    | false =>
      cases fuel with
      | zero => simp [wait_gate] at h
      | succ n =>
        rw [wait_gate_of_clear E n _ hd] at h
        simp only [] at h
        unfold Gate.claim
        rw [wait_gate_one]
        simp only [hd, Bool.false_eq_true, if_false, if_true]
        unfold Gate.finish
        simp only [h]
        simp [hlt]

/-- C6: along every schedule of calls of `download_blob` run as cooperative tasks
(a call is suspended only in `photon::thread_sleep` and, past
`downloading = true`, in its input and output), with the flag written by
`download_blob` only: at most one call is between `downloading = true` and the
deferred reset; the flag is set exactly when there is one; whatever step makes
the call that holds the flag return leaves the flag clear and no call holding
it; and a suspended call that is run through does what `download_blob` does on
the world of that moment, which, once past the test of `running`, returns with
the flag clear whatever its result. -/
theorem one_download_at_a_time {σ κ : Type} (E : BlobEnv σ κ) (hq : E.Quiet) (fuel : Nat)
    (s : σ) (cs : List (GateChoice σ)) :
    ((Gate.init s).run E fuel cs).holders ≤ 1 ∧
    (((Gate.init s).run E fuel cs).world.downloading = true ↔
      ((Gate.init s).run E fuel cs).holders = 1) ∧
    (∀ (c : GateChoice σ) (i : Nat) (a : BlobArgs) (r : Bool),
      ((Gate.init s).run E fuel cs).tasks.get? i = some (.holding a) →
      ((((Gate.init s).run E fuel cs).exec E fuel c).tasks.get? i = some (.returned r)) →
      (((Gate.init s).run E fuel cs).exec E fuel c).world.downloading = false ∧
      (((Gate.init s).run E fuel cs).exec E fuel c).holders = 0) ∧
    (∀ (i : Nat) (a : BlobArgs) (r : Bool) (w' : World σ) (ev : List Event),
      ((Gate.init s).run E fuel cs).tasks.get? i = some (.delaying a) →
      download_blob E fuel a.digest a.dst_file a.delay a.max_MB_ps a.max_try
        ((Gate.init s).run E fuel cs).world = some (r, w', ev) →
      (((Gate.init s).run E fuel cs).exec E fuel (.resume i true)).tasks.get? i =
        some (.returned r) ∧
      (((Gate.init s).run E fuel cs).exec E fuel (.resume i true)).world = w' ∧
      (E.running (E.thread_sleep ((Gate.init s).run E fuel cs).world a.delay) = true →
        w'.downloading = false)) := by
  have hinv : ((Gate.init s).run E fuel cs).Inv :=
    Gate.Inv.gate_run E hq fuel (Gate.Inv.gate_init s) cs
  generalize (Gate.init s).run E fuel cs = g at hinv ⊢
  refine ⟨?_, ?_, ?_, ?_⟩
  · unfold Gate.Inv at hinv
    split at hinv <;> omega
  · unfold Gate.Inv at hinv
    constructor
    · intro hd
      simpa [hd] using hinv
    · intro h1
      cases hd : g.world.downloading with
      | true => rfl
      | false =>
        rw [hd] at hinv
        simp only [Bool.false_eq_true, if_false] at hinv
        omega
  · intro c i a r hi hr
    have hclear := Gate.exec_holder_returns E fuel g c i a r hi hr
    have hnext := Gate.Inv.gate_exec E hq fuel hinv c
    unfold Gate.Inv at hnext
    rw [hclear] at hnext
    exact ⟨hclear, by simpa using hnext⟩
  · intro i a r w' ev hi h
    have hx := Gate.exec_eq_download_blob E hq fuel g i a r w' ev hi h
    exact ⟨hx.1, hx.2, fun hrun =>
      download_blob_resets E fuel a.digest a.dst_file a.delay a.max_MB_ps a.max_try g.world w'
        r ev h hrun⟩

theorem one_download_at_a_time_witness :
    (scripted ⟨true, true, 0⟩).Quiet ∧
    ((Gate.init 0).run (scripted ⟨true, true, 0⟩) 10
      [.call one_call, .call one_call, .resume 0 false, .resume 1 false]).holders ≤ 1 ∧
    ((Gate.init 0).run (scripted ⟨true, true, 0⟩) 10
      [.call one_call, .call one_call, .resume 0 false, .resume 1 false]).tasks
      = [.holding one_call, .polling one_call] :=
  ⟨fun _ _ => rfl,
    (one_download_at_a_time (scripted ⟨true, true, 0⟩) (fun _ _ => rfl) 10 0
      [.call one_call, .call one_call, .resume 0 false, .resume 1 false]).1, by decide⟩

theorem download_done_mismatch {σ κ : Type} (E : BlobEnv σ κ)
    (digest downloaded_file dst_file : String) (w : World σ)
    (h : (sha256sum E downloaded_file w).1 ≠ digest) :
    (download_done E digest downloaded_file dst_file w).1 = false ∧
    (download_done E digest downloaded_file dst_file w).2.2 = [] := by
  unfold download_done
  by_cases hl : E.new_localfs_adaptor w = true
  · simp [hl, h]
  · simp [hl]

/-- When every copy succeeds and no digest matches, the loop of `download_blob`
with `n` tries left copies `n` times, never renames and ends in `return false`. -/
theorem attempts_all_mismatch {σ κ : Type} (E : BlobEnv σ κ) (fuel : Nat)
    (limits : Option ThrottleLimits) (digest dl_file_path dst_file : String)
    (hcopy : ∀ w, ∃ res w', filecopy (E.copy_env limits) fuel (1024 * 1024) 1 w =
      some (res, w') ∧ 0 ≤ res)
    (hsha : ∀ w, (sha256sum E dl_file_path w).1 ≠ digest) (n : Nat) :
    ∀ w, ∃ w' ev, attempts E fuel limits digest dl_file_path dst_file n w =
      some (false, w', ev) ∧ copies_made ev = n ∧ renames_made ev = 0 := by
  induction n with
  | zero =>
    intro w
    exact ⟨w, [], rfl, rfl, rfl⟩
  | succ n ih =>
    intro w
    obtain ⟨res, w1, hc, hres⟩ := hcopy w
    obtain ⟨hd1, hd2⟩ := download_done_mismatch E digest dl_file_path dst_file w1 (hsha w1)
    obtain ⟨w', ev, he, hcm, hrm⟩ :=
      ih (download_done E digest dl_file_path dst_file w1).2.1
    refine ⟨w', Event.filecopy res :: ev, ?_, ?_, ?_⟩
    · have hnot : ¬ res < 0 := by omega
      simp [attempts, hc, hnot, hd1, hd2, he]
    · simp [copies_made, List.countP_cons] at hcm ⊢
      exact hcm
    · simp [renames_made, List.countP_cons] at hrm ⊢
      exact hrm

/-- C7: for every `max_try ≥ 1`, when the download runs (the running flag is true
after the delay, the wait for the flag ends, the temporary file opens), every
copy succeeds and the digest of the temporary file never equals the expected
one, `download_blob` calls `filecopy` exactly `max_try` times, never calls
`rename` and returns false; `SwitchFile::download` then leaves the owning
Switch File as it was, with `state = 0`, and a forwarded operation goes
straight to its backing `m_file`. -/
theorem corrupt_download_keeps_remote {σ κ : Type} (E : BlobEnv σ κ) (fuel : Nat)
    (sf : FileSystem.SwitchFile) (env : FileSystem.DecodeStack) (digest : String)
    (delay_sec max_MB_ps max_try : Int) (w w2 : World σ)
    (hmax : 1 ≤ max_try) (hstate : sf.state = 0)
    (hrun : E.running (E.thread_sleep w delay_sec) = true)
    (hgate : wait_gate E fuel (E.thread_sleep w delay_sec) = some w2)
    (hopen : (E.open_localfile_adaptor { w2 with downloading := true }
      (sf.filepath ++ ".download")).1 = true)
    (hcopy : ∀ limits w, ∃ res w', filecopy (E.copy_env limits) fuel (1024 * 1024) 1 w =
      some (res, w') ∧ 0 ≤ res)
    (hsha : ∀ w, (sha256sum E (sf.filepath ++ ".download") w).1 ≠ digest) :
    ∃ w' ev, download_blob E fuel digest sf.filepath delay_sec max_MB_ps max_try w =
        some (false, w', ev) ∧
      (copies_made ev : Int) = max_try ∧ renames_made ev = 0 ∧
      sf.download E fuel digest delay_sec max_MB_ps max_try w = some (sf, w', ev) ∧
      (sf.download_returns false).state = 0 ∧
      FileSystem.FORWARD env sf =
        .call sf.m_file { sf with io_count := sf.io_count + 1 } := by
  obtain ⟨w', ev, he, hcm, hrm⟩ :=
    attempts_all_mismatch E fuel (throttle max_MB_ps)
      digest (sf.filepath ++ ".download") sf.filepath (hcopy _) hsha max_try.toNat
      (E.open_localfile_adaptor { w2 with downloading := true }
        (sf.filepath ++ ".download")).2
  have hb : download_blob E fuel digest sf.filepath delay_sec max_MB_ps max_try w =
      some (false, { w' with downloading := false }, ev) := by
    simp [download_blob, download_blob_rest, hrun, hgate, hopen, he]
  refine ⟨{ w' with downloading := false }, ev, hb, ?_, hrm, ?_, ?_, ?_⟩
  · rw [hcm]
    omega
  · simp [FileSystem.SwitchFile.download, hb, FileSystem.SwitchFile.download_returns]
  · simpa [FileSystem.SwitchFile.download_returns] using hstate
  · simp [FileSystem.FORWARD, FileSystem.SwitchFile.check_switch, hstate,
      FileSystem.Forward.after]

theorem scripted_filecopy (c : Script) (limits : Option ThrottleLimits) (w : World Nat) :
    filecopy ((scripted c).copy_env limits) 10 (1024 * 1024) 1 w = some (0, w) :=
  rfl

theorem scripted_sha256sum (c : Script) (fn : String) (w : World Nat)
    (h : c.hash_opens = true) : sha256sum (scripted c) fn w = (zero_digest, w) := by
  obtain ⟨a, b, n⟩ := c
  simp at h
  subst h
  rfl

theorem corrupt_download_keeps_remote_witness :
    ∃ w' ev, download_blob (scripted ⟨true, true, 0⟩) 10 other_digest
        FileSystem.fresh.sf.filepath 0 0 3 start = some (false, w', ev) ∧
      (copies_made ev : Int) = 3 ∧ renames_made ev = 0 ∧
      FileSystem.fresh.sf.download (scripted ⟨true, true, 0⟩) 10 other_digest 0 0 3 start =
        some (FileSystem.fresh.sf, w', ev) ∧
      (FileSystem.fresh.sf.download_returns false).state = 0 ∧
      FileSystem.FORWARD FileSystem.opens FileSystem.fresh.sf =
        .call FileSystem.fresh.sf.m_file
          { FileSystem.fresh.sf with io_count := FileSystem.fresh.sf.io_count + 1 } :=
  corrupt_download_keeps_remote (scripted ⟨true, true, 0⟩) 10 FileSystem.fresh.sf
    FileSystem.opens other_digest 0 0 3 start start (by decide) (by decide) rfl rfl rfl
    (fun limits w => ⟨0, w, scripted_filecopy _ limits w, by decide⟩)
    (fun w => by rw [scripted_sha256sum _ _ w rfl]; exact (by decide : zero_digest ≠ other_digest))

/-- C2 (the code departs from the claim): when the temporary file does not open,
`download_blob` leaves through `LOG_ERRNO_RETURN(0, -1, ...)`, and the `-1`
becomes the `bool` true: it returns true although no copy was made, no digest
was checked and nothing was renamed; `SwitchFile::download` then sets
`state = 1`. -/
theorem download_blob_true_without_temp_file :
    ((scripted ⟨false, true, 0⟩).open_localfile_adaptor { start with downloading := true }
      (FileSystem.commit_path ++ ".download")).1 = false ∧
    download_blob (scripted ⟨false, true, 0⟩) 10 zero_digest FileSystem.commit_path 0 0 3 start =
      some (true, start, []) ∧
    FileSystem.fresh.sf.download (scripted ⟨false, true, 0⟩) 10 zero_digest 0 0 3 start =
      some ({ FileSystem.fresh.sf with state := 1 }, start, []) := by
  decide

/-- Whenever the temporary file does not open, `download_blob` returns true with
no call of `filecopy` or `rename` made. -/
theorem download_blob_of_open_failure {σ κ : Type} (E : BlobEnv σ κ) (fuel : Nat)
    (digest dst_file : String) (delay max_MB_ps max_try : Int) (w w2 : World σ)
    (hrun : E.running (E.thread_sleep w delay) = true)
    (hgate : wait_gate E fuel (E.thread_sleep w delay) = some w2)
    (hopen : (E.open_localfile_adaptor { w2 with downloading := true }
      (dst_file ++ ".download")).1 = false) :
    ∃ w', download_blob E fuel digest dst_file delay max_MB_ps max_try w =
      some (true, w', []) := by
  refine ⟨{ (E.open_localfile_adaptor { w2 with downloading := true }
    (dst_file ++ ".download")).2 with downloading := false }, ?_⟩
  simp [download_blob, download_blob_rest, hrun, hgate, hopen, LOG_ERRNO_RETURN]

theorem download_done_events {σ κ : Type} (E : BlobEnv σ κ)
    (digest downloaded_file dst_file : String) (w : World σ) :
    (download_done E digest downloaded_file dst_file w).1 = true ↔
      Event.rename downloaded_file dst_file 0 ∈
        (download_done E digest downloaded_file dst_file w).2.2 := by
  unfold download_done
  by_cases hl : E.new_localfs_adaptor w = true
  · by_cases hs : (sha256sum E downloaded_file w).1 = digest
    · by_cases hr : (E.rename (sha256sum E downloaded_file w).2 downloaded_file dst_file).1 = 0
      · simp [hl, hs, hr]
      · simp [hl, hs, hr]
        exact fun h => hr h.symm
    · simp [hl, hs]
  · simp [hl]

/-- Apart from the exit on a temporary file that does not open, the result of
`download_blob` is as the claim on it says: the loop returns true exactly when
an attempt renamed the temporary file with success, which `download_done` does
only after a copy that succeeded and a digest that matched. -/
theorem attempts_true_iff_renamed {σ κ : Type} (E : BlobEnv σ κ) (fuel : Nat)
    (limits : Option ThrottleLimits) (digest dl_file_path dst_file : String) (n : Nat) :
    ∀ (w w' : World σ) (r : Bool) (ev : List Event),
      attempts E fuel limits digest dl_file_path dst_file n w = some (r, w', ev) →
      (r = true ↔ Event.rename dl_file_path dst_file 0 ∈ ev) := by
  induction n with
  | zero =>
    intro w w' r ev h
    simp [attempts] at h
    obtain ⟨rfl, _, rfl⟩ := h
    simp
  | succ n ih =>
    intro w w' r ev h
    unfold attempts at h
    cases hc : filecopy (E.copy_env limits) fuel (1024 * 1024) 1 w with
    | none => simp [hc] at h
    | some p =>
      obtain ⟨res, w1⟩ := p
      simp only [hc] at h
      have hdd := download_done_events E digest dl_file_path dst_file w1
      by_cases hres : res < 0
      · simp only [hres, if_true, Option.map_eq_some'] at h
        obtain ⟨⟨r2, w2, ev2⟩, h2, heq⟩ := h
        simp only [Prod.mk.injEq] at heq
        obtain ⟨rfl, _, rfl⟩ := heq
        have := ih _ _ _ _ h2
        simp [this]
      · simp only [hres, if_false] at h
        by_cases hd : (download_done E digest dl_file_path dst_file w1).1 = true
        · simp only [hd, if_true, Option.some.injEq, Prod.mk.injEq] at h
          obtain ⟨rfl, _, rfl⟩ := h
          simp [hdd.1 hd]
        · simp only [hd, Bool.false_eq_true, if_false, Option.map_eq_some'] at h
          obtain ⟨⟨r2, w2, ev2⟩, h2, heq⟩ := h
          simp only [Prod.mk.injEq] at heq
          obtain ⟨rfl, _, rfl⟩ := heq
          have h3 := ih _ _ _ _ h2
          have h4 : Event.rename dl_file_path dst_file 0 ∉
              (download_done E digest dl_file_path dst_file w1).2.2 := fun hm => hd (hdd.2 hm)
          simp [h3, h4]

/-- Once the temporary file is open, `download_blob` is its loop followed by the
deferred reset of the flag. -/
theorem download_blob_eq_attempts {σ κ : Type} (E : BlobEnv σ κ) (fuel : Nat)
    (digest dst_file : String) (delay max_MB_ps max_try : Int) (w w2 : World σ)
    (hrun : E.running (E.thread_sleep w delay) = true)
    (hgate : wait_gate E fuel (E.thread_sleep w delay) = some w2)
    (hopen : (E.open_localfile_adaptor { w2 with downloading := true }
      (dst_file ++ ".download")).1 = true) :
    download_blob E fuel digest dst_file delay max_MB_ps max_try w =
      (attempts E fuel (throttle max_MB_ps) digest (dst_file ++ ".download") dst_file
        max_try.toNat
        (E.open_localfile_adaptor { w2 with downloading := true }
          (dst_file ++ ".download")).2).map
        fun r => (r.1, { r.2.1 with downloading := false }, r.2.2) := by
  simp [download_blob, download_blob_rest, hrun, hgate, hopen]

/-- C8 (the claim fails as stated): with two tries, the first attempt copies, its
digest verifies and its rename fails; `download_blob` starts a second copy,
whose rename succeeds, and returns true. -/
theorem download_blob_retries_after_rename_failure :
    download_blob (scripted ⟨true, true, 1⟩) 10 zero_digest FileSystem.commit_path 0 0 2 start =
      some (true, { downloading := false, outside := 2 },
        [.filecopy 0,
         .rename (FileSystem.commit_path ++ ".download") FileSystem.commit_path (-1),
         .filecopy 0,
         .rename (FileSystem.commit_path ++ ".download") FileSystem.commit_path 0]) := by
  decide

/-- C8 (amended): when an attempt copies the source and its digest verifies but
the rename of the temporary file fails, `download_done` returns false and the
loop of `download_blob` goes on as after any failed attempt: with `n` tries
left it runs the loop for `n` tries from the world after the rename, so it
copies again when `n > 0`, and it returns false when this was the last try. -/
theorem rename_failure_is_retried {σ κ : Type} (E : BlobEnv σ κ) (fuel : Nat)
    (limits : Option ThrottleLimits) (digest dl_file_path dst_file : String) (n : Nat)
    (w w1 : World σ) (res : Int)
    (hcopy : filecopy (E.copy_env limits) fuel (1024 * 1024) 1 w = some (res, w1))
    (hres : 0 ≤ res) (hfs : E.new_localfs_adaptor w1 = true)
    (hsha : (sha256sum E dl_file_path w1).1 = digest)
    (hren : (E.rename (sha256sum E dl_file_path w1).2 dl_file_path dst_file).1 ≠ 0) :
    (download_done E digest dl_file_path dst_file w1).1 = false ∧
    attempts E fuel limits digest dl_file_path dst_file (n + 1) w =
      (attempts E fuel limits digest dl_file_path dst_file n
        (E.rename (sha256sum E dl_file_path w1).2 dl_file_path dst_file).2).map
        (fun r => (r.1, r.2.1,
          Event.filecopy res :: Event.rename dl_file_path dst_file
            (E.rename (sha256sum E dl_file_path w1).2 dl_file_path dst_file).1 :: r.2.2)) ∧
    attempts E fuel limits digest dl_file_path dst_file 1 w =
      some (false, (E.rename (sha256sum E dl_file_path w1).2 dl_file_path dst_file).2,
        [Event.filecopy res, Event.rename dl_file_path dst_file
          (E.rename (sha256sum E dl_file_path w1).2 dl_file_path dst_file).1]) := by
  have hd : download_done E digest dl_file_path dst_file w1 =
      (false, (E.rename (sha256sum E dl_file_path w1).2 dl_file_path dst_file).2,
        [Event.rename dl_file_path dst_file
          (E.rename (sha256sum E dl_file_path w1).2 dl_file_path dst_file).1]) := by
    simp [download_done, hfs, hsha, hren]
  have hnot : ¬ res < 0 := by omega
  have hstep : ∀ m, attempts E fuel limits digest dl_file_path dst_file (m + 1) w =
      (attempts E fuel limits digest dl_file_path dst_file m
        (E.rename (sha256sum E dl_file_path w1).2 dl_file_path dst_file).2).map
        (fun r => (r.1, r.2.1,
          Event.filecopy res :: Event.rename dl_file_path dst_file
            (E.rename (sha256sum E dl_file_path w1).2 dl_file_path dst_file).1 :: r.2.2)) := by
    intro m
    simp [attempts, hcopy, hnot, hd]
  refine ⟨by rw [hd], hstep n, ?_⟩
  rw [hstep 0]
  simp [attempts]

theorem rename_failure_is_retried_witness :
    attempts (scripted ⟨true, true, 1⟩) 10 none zero_digest "a.download" "a" 1 start =
      some (false, { downloading := false, outside := 1 },
        [Event.filecopy 0, Event.rename "a.download" "a" (-1)]) :=
  (rename_failure_is_retried (scripted ⟨true, true, 1⟩) 10 none zero_digest "a.download" "a" 0
    start start 0 rfl (by decide) rfl (by decide) (by decide)).2.2

/-- C10 (the claim fails as stated): when the expected digest is the empty string
and the file to hash does not open, `sha256sum` returns the empty string, the
two strings are equal, and `download_done` renames the file and returns
true. -/
theorem download_done_accepts_failed_hash :
    (sha256sum (scripted ⟨true, false, 0⟩) "a.download" start).1 = "" ∧
    download_done (scripted ⟨true, false, 0⟩) "" "a.download" "a" start =
      (true, { downloading := false, outside := 1 }, [Event.rename "a.download" "a" 0]) := by
  decide

theorem sha256sum_of_hash_fails {σ κ : Type} (E : BlobEnv σ κ) (fn : String) (w : World σ)
    (h : hash_fails E fn w) : (sha256sum E fn w).1 = "" := by
  unfold sha256sum
  rcases h with h | ⟨h1, h2⟩ | ⟨h1, h2, h3⟩
  · simp [h]
  · simp [h1, h2]
  · simp only [h1, h2, if_false]
    split
    · rfl
    · rename_i ctx w' heq
      rw [heq] at h3
      simp at h3

/-- C10 (amended): for every expected digest other than the empty string, when
hashing the downloaded file fails (the file does not open, `fstat` fails, a
read fails or a hash update fails) `sha256sum` returns the empty string and
`download_done` returns false without calling `rename`. -/
theorem failed_hash_is_mismatch {σ κ : Type} (E : BlobEnv σ κ)
    (digest downloaded_file dst_file : String) (w : World σ)
    (hd : digest ≠ "") (hfail : hash_fails E downloaded_file w) :
    (sha256sum E downloaded_file w).1 = "" ∧
    (download_done E digest downloaded_file dst_file w).1 = false ∧
    (download_done E digest downloaded_file dst_file w).2.2 = [] := by
  have hs := sha256sum_of_hash_fails E downloaded_file w hfail
  refine ⟨hs, download_done_mismatch E digest downloaded_file dst_file w ?_⟩
  rw [hs]
  exact fun h => hd h.symm

theorem failed_hash_is_mismatch_witness :
    zero_digest ≠ "" ∧ hash_fails (scripted ⟨true, false, 0⟩) "a.download" start ∧
    (sha256sum (scripted ⟨true, false, 0⟩) "a.download" start).1 = "" ∧
    (download_done (scripted ⟨true, false, 0⟩) zero_digest "a.download" "a" start).1 = false ∧
    (download_done (scripted ⟨true, false, 0⟩) zero_digest "a.download" "a" start).2.2 = [] :=
  ⟨by decide, Or.inl (by decide),
    failed_hash_is_mismatch (scripted ⟨true, false, 0⟩) zero_digest "a.download" "a" start
      (by decide) (Or.inl (by decide))⟩

end BKDL

/-! ## The start delay of the download: theorems -/

namespace FileSystem

/-- For every `extra` other than zero, every `download_delay ≥ 0` and every value
of `rand()`, the start delay lies between `download_delay` and
`download_delay + e - 1`, provided that bound is an `int`. -/
theorem delay_sec_of_ne_zero (rand download_delay extra : Int) (hr : 0 ≤ rand)
    (he : extra ≠ 0)
    (hmax : download_delay + (if extra < 0 then 30 else extra) - 1 ≤ INT_MAX) :
    ∃ d, delay_sec rand download_delay extra = some d ∧ download_delay ≤ d ∧
      d ≤ download_delay + (if extra < 0 then 30 else extra) - 1 := by
  have hpos : 0 < (if extra < 0 then (30 : Int) else extra) := by
    split <;> omega
  have hne : ¬ (if extra < 0 then (30 : Int) else extra) = 0 := by omega
  have h1 : 0 ≤ rand.tmod (if extra < 0 then 30 else extra) := by
    rw [Int.tmod_eq_emod hr (le_of_lt hpos)]
    exact Int.emod_nonneg _ (by omega)
  have h2 : rand.tmod (if extra < 0 then 30 else extra) < (if extra < 0 then 30 else extra) := by
    rw [Int.tmod_eq_emod hr (le_of_lt hpos)]
    exact Int.emod_lt_of_pos _ hpos
  have h3 : ¬ rand.tmod (if extra < 0 then 30 else extra) + download_delay > INT_MAX := by
    omega
  refine ⟨rand.tmod (if extra < 0 then 30 else extra) + download_delay, ?_, by omega, by omega⟩
  simp only [delay_sec, hne, h3, if_false]

/-- C11 (the code departs from the claim): with `download.delay = 0` and
`download.delayExtra = 0` the start delay is `rand() % 0`, a division by zero:
the delay is not defined for any value of `rand()`, and
`new_switch_file_with_download` starts no download with delay 0. -/
theorem delay_undefined_for_extra_zero :
    delay_sec 0 0 0 = none ∧ delay_sec 1804289383 0 0 = none ∧
    new_switch_file_with_download opens 1804289383 6 (some 8) "sha256:00" (some commit_path)
      0 0 0 3 = .undefined ∧
    new_switch_file_with_download opens 1804289383 6 (some 8) "sha256:00" (some commit_path)
      0 1 0 3 = .started fresh (some 8) "sha256:00" 0 0 3 := by
  decide

theorem delay_sec_extra_zero (rand download_delay : Int) :
    delay_sec rand download_delay 0 = none := by
  simp [delay_sec]

end FileSystem

/-! ## The retries of the copy engine: theorems -/

namespace BKDL

/-- With `retry_limit = 1`, whenever the first read of a block fails the copy fails
at once: the jump back to `again_read` finds `retry` at zero and no second read
is made. -/
theorem filecopy_from_one_failed_read {σ : Type} (E : CopyEnv σ) (bs fuel : Nat)
    (buff : List Byte) (offset : Int) (w : σ) (h : (E.pread w bs offset).1.1 < 0) :
    filecopy_from E bs 1 (fuel + 2) (.again_read 1) buff offset w =
      some (-1, (E.pread w bs offset).2) := by
  simp [filecopy_from, h]

/-- With `retry_limit = 0` the copy fails before any read. -/
theorem filecopy_from_no_read {σ : Type} (E : CopyEnv σ) (bs fuel : Nat)
    (buff : List Byte) (offset : Int) (w : σ) :
    filecopy_from E bs 0 (fuel + 1) (.again_read 0) buff offset w = some (-1, w) := by
  simp [filecopy_from]

/-- C17 (the code departs from the claim): with `retry_limit = 1`, the value
`download_blob` passes, a first read that fails and a second that would
succeed, `filecopy` returns `-1` after one call of `pread`: there is no further
read.  With `retry_limit = 2` the same source is copied after two reads, and
with `retry_limit = 0` the copy fails although no read was made at all. -/
theorem filecopy_fails_after_one_failed_read :
    filecopy (flaky 1) 100 4 1 0 = some (-1, 1) ∧
    filecopy (flaky 1) 100 4 2 0 = some (0, 2) ∧
    filecopy (flaky 0) 100 4 1 0 = some (0, 1) ∧
    filecopy (flaky 0) 100 4 0 0 = some (-1, 0) := by
  decide

end BKDL

/-! ## The status of the image: theorems -/

theorem ImageFile.record_of_failed (img : ImageFile) (h : img.m_status ≠ 0) (c : Failure) :
    img.record c = img := by
  cases c <;> simp [ImageFile.record, ImageFile.set_failed, ImageFile.set_auth_failed, h]

theorem ImageFile.record_all_of_failed (cs : List Failure) :
    ∀ img : ImageFile, img.m_status ≠ 0 → cs.foldl ImageFile.record img = img := by
  induction cs with
  | nil => intro img _; rfl
  | cons c cs ih =>
    intro img h
    rw [List.foldl_cons, ImageFile.record_of_failed img h c]
    exact ih img h

/-- C16: on an `ImageFile` with `m_status = 0`, after a sequence of calls of
`set_failed` and `set_auth_failed` that begins with the call `c`, `m_status` is
`-1` and `m_exception` is the reason of `c` (`"Authentication failed"` for
`set_auth_failed`); the calls `ds` made after that sequence change neither. -/
theorem first_failure_is_kept (img : ImageFile) (c : Failure) (cs ds : List Failure)
    (h : img.m_status = 0) :
    ((c :: cs).foldl ImageFile.record img).m_status = -1 ∧
    ((c :: cs).foldl ImageFile.record img).m_exception = c.reason ∧
    (c :: cs ++ ds).foldl ImageFile.record img = (c :: cs).foldl ImageFile.record img := by
  have h1 : (img.record c).m_status = -1 ∧ (img.record c).m_exception = c.reason := by
    cases c <;>
      simp [ImageFile.record, ImageFile.set_failed, ImageFile.set_auth_failed, h,
        Failure.reason]
  have hne : (img.record c).m_status ≠ 0 := by rw [h1.1]; decide
  have h2 : (c :: cs).foldl ImageFile.record img = img.record c := by
    rw [List.foldl_cons]
    exact ImageFile.record_all_of_failed cs _ hne
  refine ⟨by rw [h2]; exact h1.1, by rw [h2]; exact h1.2, ?_⟩
  rw [List.cons_append, List.foldl_cons, List.foldl_cons,
    ImageFile.record_all_of_failed _ _ hne, ImageFile.record_all_of_failed _ _ hne]

theorem first_failure_is_kept_witness :
    blank.m_status = 0 ∧
      ([Failure.set_auth_failed, .set_failed "failed to open remote file"].foldl
        ImageFile.record blank).m_status = -1 ∧
      ([Failure.set_auth_failed, .set_failed "failed to open remote file"].foldl
        ImageFile.record blank).m_exception = "Authentication failed" :=
  ⟨rfl,
    (first_failure_is_kept blank .set_auth_failed [.set_failed "failed to open remote file"]
      [.set_auth_failed] rfl).1,
    (first_failure_is_kept blank .set_auth_failed [.set_failed "failed to open remote file"]
      [.set_auth_failed] rfl).2.1⟩

/-! ## Opening a layer: theorems -/

theorem open_ro_file_switch_head (img : ImageFile) (env : LayerEnv) (path : String)
    (file : FileSystem.IFile) (c : Call) :
    (img.open_ro_file_switch env path file [c]).2.2.head? = some c := by
  unfold ImageFile.open_ro_file_switch
  cases FileSystem.new_switch_file env.decode file true (some path) <;> rfl

/-- The first call of `__open_ro_file` is the local open, with the engine
`ioEngine` unless that is above 2, and then 0. -/
theorem open_ro_file_engine (img : ImageFile) (svc : ImageService) (env : LayerEnv)
    (path : String) :
    ∃ flags, (img.__open_ro_file svc env path).2.2.head? =
      some (.open_localfile_adaptor path flags (if svc.ioEngine > 2 then 0 else svc.ioEngine)) := by
  refine ⟨if ((if svc.ioEngine > 2 then 0 else svc.ioEngine) == io_engine_libaio) = true
    then O_RDONLY ||| O_DIRECT else O_RDONLY, ?_⟩
  unfold ImageFile.__open_ro_file
  simp only []
  generalize (if svc.ioEngine > 2 then (0 : Int) else svc.ioEngine) = ioengine
  generalize (if (ioengine == io_engine_libaio) = true then O_RDONLY ||| O_DIRECT
    else O_RDONLY) = flags
  cases env.open_localfile_adaptor path flags ioengine with
  | none => rfl
  | some file =>
    simp only []
    cases (flags &&& O_DIRECT != 0) with
    | false => exact open_ro_file_switch_head img env path file _
    | true =>
      simp only [if_true]
      cases env.new_aligned_file_adaptor file with
      | none => rfl
      | some aligned => exact open_ro_file_switch_head img env path aligned _

/-- For an engine that is not negative, the engine passed to the local open is the
configured one when it is 0, 1 or 2, and 0 otherwise. -/
theorem open_ro_file_engine_of_nonneg (img : ImageFile) (svc : ImageService) (env : LayerEnv)
    (path : String) (h : 0 ≤ svc.ioEngine) :
    ∃ flags, (img.__open_ro_file svc env path).2.2.head? =
      some (.open_localfile_adaptor path flags
        (if svc.ioEngine = 0 ∨ svc.ioEngine = 1 ∨ svc.ioEngine = 2 then svc.ioEngine else 0)) := by
  obtain ⟨flags, hf⟩ := open_ro_file_engine img svc env path
  refine ⟨flags, ?_⟩
  rw [hf]
  congr 2
  split <;> split <;> omega

/-- C12 (the code departs from the claim): with the engine `-1`, a value outside
`{0, 1, 2}`, `__open_ro_file` passes `-1` to the local open, not 0: only values
above 2 are reset. -/
theorem negative_ioengine_is_passed_on :
    (blank.__open_ro_file (no_layers (-1)) local_layer "/l/overlaybd.commit").2.2 =
      [.open_localfile_adaptor "/l/overlaybd.commit" O_RDONLY (-1), .new_switch_file true] ∧
    (blank.__open_ro_file (no_layers 7) local_layer "/l/overlaybd.commit").2.2 =
      [.open_localfile_adaptor "/l/overlaybd.commit" O_RDONLY 0, .new_switch_file true] := by
  decide

/-- C13 (the code departs from the claim): on a miss of the cache, with a commit
file that exists and does not open, `__open_ro_file` returns null and records
the failure, yet `__open_ro_remote_share` wraps the null file in a `RefFile`,
enters it in `opened_files` and returns it. -/
theorem broken_commit_file_is_cached :
    (no_layers 0).opened_files "/l" = none ∧
    (blank.__open_ro_file (no_layers 0) broken_commit ("/l" ++ "/" ++ COMMIT_FILE_NAME)).1 = none ∧
    (blank.__open_ro_remote_share (no_layers 0) broken_commit "/l" "sha256:ab" 4096).ret =
      .file 1000 ∧
    (blank.__open_ro_remote_share (no_layers 0) broken_commit "/l" "sha256:ab" 4096).svc.opened_files
      "/l" = some { addr := 1000, m_file := none, key := "/l", ref_count := 1 } ∧
    (blank.__open_ro_remote_share (no_layers 0) broken_commit "/l" "sha256:ab" 4096).img.m_status =
      -1 := by
  decide

theorem build_switch_null (img : ImageFile) (env : LayerEnv) (dir digest url : String)
    (remote_file : FileSystem.IFile)
    (hz : ∀ path, FileSystem.new_switch_file env.decode remote_file false path = none) :
    (img.build_switch env dir digest url remote_file).1 = some none := by
  unfold ImageFile.build_switch FileSystem.new_switch_file_with_download
  cases hd : img.download with
  | none => simp [hz]
  | some download =>
    by_cases he : download.enable = 1
    · simp [hz, he]
    · simp [hz, he]

theorem open_remote_switch_null (img : ImageFile) (svc : ImageService) (env : LayerEnv)
    (dir digest url : String) (remote_file : FileSystem.IFile)
    (hz : ∀ path, FileSystem.new_switch_file env.decode remote_file false path = none) :
    (img.open_remote_switch svc env dir digest url remote_file).ret = .null ∧
    (img.open_remote_switch svc env dir digest url remote_file).svc = svc := by
  unfold ImageFile.open_remote_switch
  rw [build_switch_null img env dir digest url remote_file hz]
  exact ⟨rfl, rfl⟩

/-- The other failures of a remote open do as the claim says: with no commit file,
when `repoBlobUrl` is empty, the remote open fails or the zfile on the remote
file does not open, `__open_ro_remote_share` returns null and leaves the
service as it was. -/
theorem remote_failure_returns_null (img : ImageFile) (svc : ImageService) (env : LayerEnv)
    (dir digest : String) (size : Nat) (hmiss : svc.opened_files dir = none)
    (hnc : BKDL.check_downloaded env (dir ++ "/" ++ COMMIT_FILE_NAME) = false)
    (hfail : img.repoBlobUrl = "" ∨ (env.remote_open (img.remote_url digest)).1 = none ∨
      ∀ f, env.decode.zfile_open_ro (env.decode.new_tar_file_adaptor f) true = none) :
    (img.__open_ro_remote_share svc env dir digest size).ret = .null ∧
    (img.__open_ro_remote_share svc env dir digest size).svc = svc := by
  unfold ImageFile.__open_ro_remote_share
  simp only [hmiss, hnc]
  by_cases hb : img.repoBlobUrl = ""
  · simp [hb]
  · have hb' : (img.repoBlobUrl == "") = false := by simpa using hb
    simp only [hb', Bool.false_eq_true, if_false]
    cases hr : env.remote_open (img.remote_url digest) with
    | mk rf errno =>
      cases rf with
      | none => simp
      | some remote_file =>
        simp only []
        rcases hfail with h | h | h
        · exact absurd h hb
        · rw [hr] at h; simp at h
        · exact open_remote_switch_null img svc env dir digest _ remote_file
            (fun path => by simp [FileSystem.new_switch_file, h])

theorem ends_with_slash_iff (b : String) :
    b.data.getLast? = some '/' ↔ ∃ p : String, b = p ++ "/" := by
  rw [List.getLast?_eq_some_iff]
  constructor
  · rintro ⟨ys, h⟩
    exact ⟨⟨ys⟩, String.ext (by simpa using h)⟩
  · rintro ⟨p, h⟩
    exact ⟨p.data, by rw [h]; rfl⟩

theorem remote_url_eq (img : ImageFile) (digest : String) :
    ((∃ p : String, img.repoBlobUrl = p ++ "/") →
      img.remote_url digest = img.repoBlobUrl ++ digest) ∧
    ((¬ ∃ p : String, img.repoBlobUrl = p ++ "/") →
      img.remote_url digest = img.repoBlobUrl ++ "/" ++ digest) := by
  unfold ImageFile.remote_url
  constructor
  · intro h
    have := (ends_with_slash_iff img.repoBlobUrl).2 h
    simp [this]
  · intro h
    have : ¬ img.repoBlobUrl.data.getLast? = some '/' :=
      fun e => h ((ends_with_slash_iff img.repoBlobUrl).1 e)
    simp [this]

theorem build_switch_no_remote_open (img : ImageFile) (env : LayerEnv)
    (dir digest url : String) (remote_file : FileSystem.IFile) (u : String) :
    Call.remote_open u ∉ (img.build_switch env dir digest url remote_file).2 := by
  unfold ImageFile.build_switch
  cases img.download with
  | none =>
    simp only []
    cases FileSystem.new_switch_file env.decode remote_file false none <;> simp
  | some download =>
    simp only []
    split
    · split <;> simp
    · cases FileSystem.new_switch_file env.decode remote_file false none <;> simp

/-- On a miss with no commit file and a base URL that is not empty, the one URL
opened on the remote file system is `remote_url`. -/
theorem remote_open_calls (img : ImageFile) (svc : ImageService) (env : LayerEnv)
    (dir digest : String) (size : Nat) (hmiss : svc.opened_files dir = none)
    (hnc : BKDL.check_downloaded env (dir ++ "/" ++ COMMIT_FILE_NAME) = false)
    (hb : img.repoBlobUrl ≠ "") (u : String) :
    Call.remote_open u ∈ (img.__open_ro_remote_share svc env dir digest size).calls ↔
      u = img.remote_url digest := by
  have hb' : (img.repoBlobUrl == "") = false := by simpa using hb
  unfold ImageFile.__open_ro_remote_share
  simp only [hmiss, hnc, hb', Bool.false_eq_true, if_false]
  cases hr : env.remote_open (img.remote_url digest) with
  | mk rf errno =>
    cases rf with
    | none => simp
    | some remote_file =>
      simp only []
      have hn := build_switch_no_remote_open img env dir digest (img.remote_url digest)
        remote_file u
      unfold ImageFile.open_remote_switch
      split <;> simp [hn]

/-- C15: on an open that reaches the remote file system (a miss of the cache, no
commit file) with a base URL `b = repoBlobUrl` that is not empty, the URL
opened there is `b` followed by the digest when `b` ends with `/`, and `b`,
`/` and the digest otherwise. -/
theorem remote_url_has_one_slash (img : ImageFile) (svc : ImageService) (env : LayerEnv)
    (dir digest : String) (size : Nat) (hmiss : svc.opened_files dir = none)
    (hnc : BKDL.check_downloaded env (dir ++ "/" ++ COMMIT_FILE_NAME) = false)
    (hb : img.repoBlobUrl ≠ "") :
    ((∃ p : String, img.repoBlobUrl = p ++ "/") → ∀ u,
      Call.remote_open u ∈ (img.__open_ro_remote_share svc env dir digest size).calls ↔
        u = img.repoBlobUrl ++ digest) ∧
    ((¬ ∃ p : String, img.repoBlobUrl = p ++ "/") → ∀ u,
      Call.remote_open u ∈ (img.__open_ro_remote_share svc env dir digest size).calls ↔
        u = img.repoBlobUrl ++ "/" ++ digest) := by
  constructor
  · intro h u
    rw [remote_open_calls img svc env dir digest size hmiss hnc hb u,
      (remote_url_eq img digest).1 h]
  · intro h u
    rw [remote_open_calls img svc env dir digest size hmiss hnc hb u,
      (remote_url_eq img digest).2 h]

theorem remote_url_has_one_slash_witness :
    (no_layers 0).opened_files "/l" = none ∧
      BKDL.check_downloaded remote_layer ("/l" ++ "/" ++ COMMIT_FILE_NAME) = false ∧
      blank.repoBlobUrl ≠ "" ∧
      Call.remote_open "https://registry/v2/blobs/sha256:0" ∈
        (blank.__open_ro_remote_share (no_layers 0) remote_layer "/l" "sha256:0" 4).calls :=
  ⟨rfl, by decide, by decide,
    ((remote_url_has_one_slash blank (no_layers 0) remote_layer "/l" "sha256:0" 4 rfl
      (by decide) (by decide)).2
      (fun h => absurd ((ends_with_slash_iff blank.repoBlobUrl).2 h) (by decide)) _).2 (by decide)⟩

/-! ## The key of a list of lower layers: theorems -/

/-- Two strings, each followed by the separator `c` they do not contain and by
a rest, are equal only if the strings and the rests are. -/
theorem sep_cancel (c : Char) : ∀ (x y r s : List Char), c ∉ x → c ∉ y →
    x ++ c :: r = y ++ c :: s → x = y ∧ r = s
  | [], [], r, s, _, _, h => by simpa using h
  | [], b :: y, r, s, _, hy, h => by
    simp only [List.nil_append, List.cons_append, List.cons.injEq] at h
    exact absurd (h.1 ▸ List.mem_cons_self _ _) hy
  | a :: x, [], r, s, hx, _, h => by
    simp only [List.nil_append, List.cons_append, List.cons.injEq] at h
    exact absurd (h.1 ▸ List.mem_cons_self _ _) hx
  | a :: x, b :: y, r, s, hx, hy, h => by
    simp only [List.cons_append, List.cons.injEq] at h
    have ih := sep_cancel c x y r s (fun m => hx (List.mem_cons_of_mem _ m))
      (fun m => hy (List.mem_cons_of_mem _ m)) h.2
    exact ⟨by rw [h.1, ih.1], ih.2⟩

/-- Lists of strings without the separator that give the same composite string
are equal. -/
theorem joined_inj (c : Char) : ∀ (xs ys : List (List Char)), (∀ x ∈ xs, c ∉ x) →
    (∀ y ∈ ys, c ∉ y) →
    (xs.map fun x => x ++ [c]).flatten = (ys.map fun y => y ++ [c]).flatten → xs = ys
  | [], [], _, _, _ => rfl
  | [], y :: ys, _, _, h => by simp at h
  | x :: xs, [], _, _, h => by simp at h
  | x :: xs, y :: ys, hx, hy, h => by
    simp only [List.map_cons, List.flatten_cons, List.append_assoc, List.singleton_append] at h
    have hc := sep_cancel c x y _ _ (hx x (List.mem_cons_self _ _))
      (hy y (List.mem_cons_self _ _)) h
    have ih := joined_inj c xs ys (fun z m => hx z (List.mem_cons_of_mem _ m))
      (fun z m => hy z (List.mem_cons_of_mem _ m)) hc.2
    rw [hc.1, ih]

/-- Over layers that all have a key, the loop of `open_lowers` reports no error
and appends each key followed by `;` to `lowersKey`. -/
theorem open_lowers_loop_key : ∀ (ls : List LayerConfig) (img : ImageFile) (i : Nat),
    (∀ l ∈ ls, l.key ≠ "") →
    (img.open_lowers_loop i ls).2 = false ∧
      (img.open_lowers_loop i ls).1.lowersKey.data =
        img.lowersKey.data ++ (ls.map fun l => l.key.data ++ [';']).flatten
  | [], img, i, _ => by simp [ImageFile.open_lowers_loop]
  | l :: ls, img, i, h => by
    have hl := h l (List.mem_cons_self _ _)
    have ht : ∀ l' ∈ ls, l'.key ≠ "" := fun l' m => h l' (List.mem_cons_of_mem _ m)
    unfold ImageFile.open_lowers_loop
    cases hf : (l.file != "")
    · have hk : l.key = l.dir := by simp only [LayerConfig.key, hf, Bool.false_eq_true, if_false]
      have hd : (l.dir != "") = true := by
        rw [hk] at hl
        simpa using hl
      have ih := open_lowers_loop_key ls
        { img with lower_file_keys := img.lower_file_keys.set i l.dir
                   lowersKey := img.lowersKey ++ (l.dir ++ ";") } (i + 1) ht
      simp only [hd, Bool.false_eq_true, if_true, if_false]
      refine ⟨ih.1, ?_⟩
      rw [ih.2, List.map_cons, List.flatten_cons, hk]
      simp only [String.data_append, List.append_assoc]
    · have hk : l.key = l.file := by simp only [LayerConfig.key, hf, if_true]
      have ih := open_lowers_loop_key ls
        { img with lower_file_keys := img.lower_file_keys.set i l.file
                   lowersKey := img.lowersKey ++ (l.file ++ ";") } (i + 1) ht
      simp only [if_true]
      refine ⟨ih.1, ?_⟩
      rw [ih.2, List.map_cons, List.flatten_cons, hk]
      simp only [String.data_append, List.append_assoc]

/-- Called on an image whose `lowersKey` is still empty, with layers that all
have a key, `open_lowers` leaves in `lowersKey` each key followed by `;`. -/
theorem open_lowers_key (img : ImageFile) (svc : ImageService) (ls : List LayerConfig)
    (h0 : img.lowersKey = "") (h : ∀ l ∈ ls, l.key ≠ "") :
    (img.open_lowers svc ls).img.lowersKey.data =
      (ls.map fun l => l.key.data ++ [';']).flatten := by
  unfold ImageFile.open_lowers
  split
  · next hn =>
    have : ls = [] := List.length_eq_zero.1 hn
    simp [this, h0]
  · have hk := open_lowers_loop_key ls
      { img with lowersKey := "",
                 lower_file_keys := resize img.lower_file_keys ls.length } 0 h
    simp only [] at hk ⊢
    generalize ImageFile.open_lowers_loop _ 0 ls = out at hk ⊢
    obtain ⟨img', b⟩ := out
    simp only [] at hk
    rw [hk.1]
    simp only []
    cases svc.opened_lowers img'.lowersKey <;> simpa using hk.2

/-- C18: for two lists of lower layers whose keys (`file()` if it is not empty,
`dir()` otherwise) are not empty and contain no `;`, each opened by
`open_lowers` on an image whose `lowersKey` was still empty, the composite
keys left in `lowersKey` are equal only if the lists have the same length and
the same key at each position. -/
theorem equal_lowersKey_same_keys (img1 img2 : ImageFile) (svc1 svc2 : ImageService)
    (ls1 ls2 : List LayerConfig) (f1 : img1.lowersKey = "") (f2 : img2.lowersKey = "")
    (h1 : ∀ l ∈ ls1, l.key ≠ "" ∧ ';' ∉ l.key.data)
    (h2 : ∀ l ∈ ls2, l.key ≠ "" ∧ ';' ∉ l.key.data)
    (heq : (img1.open_lowers svc1 ls1).img.lowersKey =
      (img2.open_lowers svc2 ls2).img.lowersKey) :
    ls1.length = ls2.length ∧
      ∀ (i : Nat) (p : i < ls1.length) (q : i < ls2.length),
        (ls1.get ⟨i, p⟩).key = (ls2.get ⟨i, q⟩).key := by
  have e1 := open_lowers_key img1 svc1 ls1 f1 (fun l m => (h1 l m).1)
  have e2 := open_lowers_key img2 svc2 ls2 f2 (fun l m => (h2 l m).1)
  rw [heq, e2] at e1
  have hj := joined_inj ';' (ls1.map fun l => l.key.data) (ls2.map fun l => l.key.data)
    (by
      intro x hx
      obtain ⟨l, m, rfl⟩ := List.mem_map.1 hx
      exact (h1 l m).2)
    (by
      intro x hx
      obtain ⟨l, m, rfl⟩ := List.mem_map.1 hx
      exact (h2 l m).2)
    (by simpa [List.map_map, Function.comp_def] using e1.symm)
  have hlen : ls1.length = ls2.length := by
    have := congrArg List.length hj
    simpa using this
  refine ⟨hlen, fun i p q => ?_⟩
  have hi := congrArg (fun xs => xs.get? i) hj
  simp only [List.get?_eq_getElem?, List.getElem?_map] at hi
  rw [List.getElem?_eq_getElem p, List.getElem?_eq_getElem q] at hi
  simp only [Option.map_some', Option.some.injEq] at hi
  exact String.ext hi

theorem equal_lowersKey_same_keys_witness :
    (blank.open_lowers (no_layers 0) three_layers).img.lowersKey = "/l/0;/l/1;/l/2;" ∧
      three_layers.length = three_layers_again.length ∧
      ∀ (i : Nat) (p : i < three_layers.length) (q : i < three_layers_again.length),
        (three_layers.get ⟨i, p⟩).key = (three_layers_again.get ⟨i, q⟩).key :=
  ⟨by decide, equal_lowersKey_same_keys blank downloading_image (no_layers 0) (no_layers 1)
    three_layers three_layers_again rfl rfl (by decide) (by decide) (by decide)⟩
